import Mathlib

/-!
# Room availability: occupancy model of `app.js` and `static/app.js`

A shallow embedding of the in-memory store, its two loaders (the JSON loader
`loadData` of `app.js` and the SQL-dump loader `parseSqlText` of
`static/app.js`), the occupancy resolver `getOccupancy` (identical in both
files), the status text of the table renderer `drawRooms` and the initial
selection made by `buildFilters` (identical in both files).

Modelling conventions.

* A JavaScript string is its list of UTF-16 code units (`JsString`).
* A JavaScript value is `undefined`, `null`, `NaN`, an integer-valued number or
  a string (`JsVal`).  A number is written as the integer it equals (`Int`);
  `+0` and `-0` are one value, which no operation used here can tell apart.
  `Number(s)` on a decimal integer numeral is the double nearest to it
  (`roundNat`), so a numeral beyond 2^53 may convert to another integer.
  Doubles that are not integers are outside the embedding: `Number(s)` on any
  other string is left to a parameter (`numberOther`), so every statement about
  the SQL-dump loader holds whatever that conversion returns.  `String(v)` of a
  number is its decimal numeral, which is what JavaScript prints below 10^21.
* A `Map` is an insertion-ordered association list with `SameValueZero` keys,
  which on `JsVal` is structural equality; `===` differs from it only on `NaN`.
* A statement that throws is modelled by `none` in `Option`; the `null` that
  `parseInsertValues` returns for a line without values is `none` as well.
* `getOccupancy` is the same text in both files and has one definition here.
-/

namespace RoomAvailability

/-! ## Values -/

/-- A JavaScript string, as its sequence of UTF-16 code units. -/
abbrev JsString := List Nat

/-- The code units of a literal whose characters all lie in the basic plane. -/
def u16 (s : String) : JsString := s.data.map Char.toNat

/-- The JavaScript values that occur in rows, records and filters. -/
inductive JsVal where
  | undefined
  | null
  | nan
  | num (n : Int)
  | str (s : JsString)
  deriving DecidableEq, Repr

/-- Strict equality `a === b`: equal values, except that `NaN` equals nothing. -/
def strictEq (a b : JsVal) : Bool :=
  match a with
  | .nan => false
  | _ => decide (a = b)

/-- Truthiness, as tested by `x ? _ : _`, `x || _` and `!x`. -/
def truthy : JsVal → Bool
  | .undefined => false
  | .null => false
  | .nan => false
  | .num n => decide (n ≠ 0)
  | .str s => decide (s ≠ [])

/-- Decimal digits of a natural number, most significant first; `fuel` bounds the
number of digits produced. -/
def digitsFuel : Nat → Nat → JsString → JsString
  | 0, _, acc => acc
  | fuel + 1, n, acc =>
    if n / 10 = 0 then (48 + n % 10) :: acc
    else digitsFuel fuel (n / 10) ((48 + n % 10) :: acc)

/-- The decimal numeral of a natural number. -/
def natToString (n : Nat) : JsString := digitsFuel (n + 1) n []

/-- The decimal numeral of an integer, with a leading `-` when negative. -/
def intToString : Int → JsString
  | Int.ofNat n => natToString n
  | Int.negSucc n => 45 :: natToString (n + 1)

/-- The conversion `String(v)` applied by template literals and by the default
sort order.  A number is printed as its decimal numeral, as JavaScript does for an
integer below 10^21 in magnitude. -/
def toStr : JsVal → JsString
  | .undefined => u16 "undefined"
  | .null => u16 "null"
  | .nan => u16 "NaN"
  | .num n => intToString n
  | .str s => s

/-- Code-unit order on strings: `a < b` as JavaScript compares two strings. -/
def strLt : JsString → JsString → Bool
  | [], [] => false
  | [], _ :: _ => true
  | _ :: _, [] => false
  | a :: as, b :: bs => decide (a < b) || (decide (a = b) && strLt as bs)

/-! ## Maps -/

/-- An insertion-ordered `Map` with keys compared by `SameValueZero`. -/
abbrev JsMap (V : Type) := List (JsVal × V)

/-- The lookup `m.get(k)`: `none` stands for `undefined`. -/
def JsMap.get {V : Type} : JsMap V → JsVal → Option V
  | [], _ => none
  | (k', v) :: m, k => if k' = k then some v else JsMap.get m k

/-- The test `m.has(k)`. -/
def JsMap.has {V : Type} (m : JsMap V) (k : JsVal) : Bool := (JsMap.get m k).isSome

/-- The update `m.set(k, v)`: an existing key keeps its position, a new key goes last. -/
def JsMap.set {V : Type} : JsMap V → JsVal → V → JsMap V
  | [], k, v => [(k, v)]
  | (k', v') :: m, k, v => if k' = k then (k', v) :: m else (k', v') :: JsMap.set m k v

/-- The statement `m.get(k).push(v)`: appends to the array stored under `k`, and
throws (`none`) when `k` is not a key. -/
def JsMap.pushAt {V : Type} : JsMap (List V) → JsVal → V → Option (JsMap (List V))
  | [], _, _ => none
  | (k', vs) :: m, k, v =>
    if k' = k then some ((k', vs ++ [v]) :: m)
    else (JsMap.pushAt m k v).map (fun m' => (k', vs) :: m')

/-- The keys of a map, in insertion order. -/
def JsMap.keys {V : Type} (m : JsMap V) : List JsVal := m.map Prod.fst

/-! ## The store -/

/-- A room record, as built by both loaders. -/
structure Room where
  id : JsVal
  number : JsVal
  floor : JsVal
  type : JsVal
  x : JsVal
  y : JsVal
  width : JsVal
  height : JsVal
  deriving DecidableEq, Repr

/-- A class-info record. -/
structure ClassInfo where
  scheduleId : JsVal
  teacher : JsVal
  grade : JsVal
  className : JsVal
  deriving DecidableEq, Repr

/-- A schedule entry. -/
structure Entry where
  scheduleId : JsVal
  classId : JsVal
  day : JsVal
  period : JsVal
  roomId : JsVal
  deriving DecidableEq, Repr

/-- The global `state` object. -/
structure State where
  roomsById : JsMap Room
  roomsByFloor : JsMap (List Room)
  classInfoBySchedule : JsMap ClassInfo
  schedules : List Entry
  days : List JsVal
  periods : List JsVal
  deriving DecidableEq, Repr

/-- The initial value of `state`: empty maps and empty arrays. -/
def emptyState : State :=
  { roomsById := [], roomsByFloor := [], classInfoBySchedule := [],
    schedules := [], days := [], periods := [] }

/-! ## Derived sets -/

/-- The array `Array.from(new Set(xs))`: the distinct values of `xs`, each at its
first occurrence. -/
def arrayFromSet (xs : List JsVal) : List JsVal :=
  xs.foldl (fun acc x => if x ∈ acc then acc else acc ++ [x]) []

/-- The default sort order on defined values: `a` does not come after `b` when
`String(b) < String(a)` fails. -/
def sortLe (a b : JsVal) : Prop := strLt (toStr b) (toStr a) = false

instance : DecidableRel sortLe := fun a b => by unfold sortLe; infer_instance

/-- The call `xs.sort()` with no comparator: a stable sort by the string forms,
with every `undefined` moved to the end. -/
def jsSort (xs : List JsVal) : List JsVal :=
  (xs.filter (fun v => decide (v ≠ JsVal.undefined))).insertionSort sortLe
    ++ xs.filter (fun v => decide (v = JsVal.undefined))

/-! ## The occupancy resolver -/

/-- One iteration of the loop of `getOccupancy` over `state.schedules`. -/
def occupancyStep (state : State) (day period floor : JsVal)
    (occupancy : JsMap (List Entry)) (entry : Entry) : Option (JsMap (List Entry)) :=
  if !strictEq entry.day day || !strictEq entry.period period then some occupancy
  else
    match JsMap.get state.roomsById entry.roomId with
    | none => some occupancy
    | some room =>
      if !strictEq room.floor floor then some occupancy
      else
        let occupancy1 :=
          if JsMap.has occupancy room.id then occupancy else JsMap.set occupancy room.id []
        JsMap.pushAt occupancy1 room.id entry

/-- The function `getOccupancy(day, period, floor)` of both variants; `none` would be
a thrown exception. -/
def getOccupancy (state : State) (day period floor : JsVal) : Option (JsMap (List Entry)) :=
  state.schedules.foldlM (occupancyStep state day period floor) []

/-! ## The JSON loader of `app.js` -/

/-- A row of `data.rooms`, with the column names of the `RoomInfo` table; a missing
field reads as `undefined`. -/
structure RoomRow where
  RoomID : JsVal
  RoomNumber : JsVal
  RoomFloor : JsVal
  RoomType : JsVal
  X : JsVal
  Y : JsVal
  Width : JsVal
  Height : JsVal
  deriving DecidableEq, Repr

/-- A row of `data.classInfo`. -/
structure ClassInfoRow where
  ScheduleID : JsVal
  TeacherName : JsVal
  GradeLevel : JsVal
  ClassName : JsVal
  deriving DecidableEq, Repr

/-- A row of `data.schedules`. -/
structure ScheduleRow where
  ScheduleID : JsVal
  ClassID : JsVal
  Day : JsVal
  Period : JsVal
  RoomID : JsVal
  deriving DecidableEq, Repr

/-- The JSON document served at `/api/data`. -/
structure Data where
  rooms : List RoomRow
  classInfo : List ClassInfoRow
  schedules : List ScheduleRow
  deriving DecidableEq, Repr

/-- The record `roomData` built from a row. -/
def roomData (room : RoomRow) : Room :=
  { id := room.RoomID, number := room.RoomNumber, floor := room.RoomFloor,
    type := room.RoomType, x := room.X, y := room.Y, width := room.Width,
    height := room.Height }

/-- The class-info record built from a row. -/
def classInfoData (info : ClassInfoRow) : ClassInfo :=
  { scheduleId := info.ScheduleID, teacher := info.TeacherName,
    grade := info.GradeLevel, className := info.ClassName }

/-- The schedule entry built from a row. -/
def entryData (entry : ScheduleRow) : Entry :=
  { scheduleId := entry.ScheduleID, classId := entry.ClassID, day := entry.Day,
    period := entry.Period, roomId := entry.RoomID }

/-- The three statements that register a room, the same in both loaders:
`roomsById.set(id, room)`, the creation of the floor's array when the floor is new,
and `roomsByFloor.get(floor).push(room)`. -/
def addRoom (state : State) (room : Room) : Option State :=
  let roomsById := JsMap.set state.roomsById room.id room
  let roomsByFloor :=
    if JsMap.has state.roomsByFloor room.floor then state.roomsByFloor
    else JsMap.set state.roomsByFloor room.floor []
  (JsMap.pushAt roomsByFloor room.floor room).map
    (fun roomsByFloor2 => { state with roomsById := roomsById, roomsByFloor := roomsByFloor2 })

/-- The statement `classInfoBySchedule.set(id, info)`. -/
def addClassInfo (state : State) (info : ClassInfo) : State :=
  { state with
    classInfoBySchedule := JsMap.set state.classInfoBySchedule info.scheduleId info }

/-- The last two statements of both loaders: `days` and `periods` recomputed from
`state.schedules`. -/
def deriveSets (state : State) : State :=
  { state with
    days := jsSort (arrayFromSet (state.schedules.map (fun s => s.day)))
    periods := jsSort (arrayFromSet (state.schedules.map (fun s => s.period))) }

/-- The populate step of `loadData`: the callback run on the parsed JSON `data`,
acting on the current `state`. -/
def loadData (data : Data) (state : State) : Option State := do
  let cleared : State :=
    { state with roomsById := [], roomsByFloor := [], classInfoBySchedule := [] }
  let withRooms ← data.rooms.foldlM (fun st room => addRoom st (roomData room)) cleared
  let withInfo := data.classInfo.foldl (fun st info => addClassInfo st (classInfoData info))
    withRooms
  let withSchedules : State := { withInfo with schedules := data.schedules.map entryData }
  pure (deriveSets withSchedules)

/-! ## The SQL-dump loader of `static/app.js` -/

/-- Line terminators, which `.` in a regular expression does not match. -/
def isLineTerminator (c : Nat) : Bool :=
  decide (c = 10) || decide (c = 13) || decide (c = 0x2028) || decide (c = 0x2029)

/-- White space and line terminators, as removed by `trim()`. -/
def isWhiteSpace (c : Nat) : Bool :=
  decide (c = 9) || decide (c = 10) || decide (c = 11) || decide (c = 12) || decide (c = 13)
    || decide (c = 32) || decide (c = 0xA0) || decide (c = 0x1680)
    || (decide (0x2000 ≤ c) && decide (c ≤ 0x200A))
    || decide (c = 0x2028) || decide (c = 0x2029) || decide (c = 0x202F)
    || decide (c = 0x205F) || decide (c = 0x3000) || decide (c = 0xFEFF)

/-- The method `s.trim()`. -/
def trim (s : JsString) : JsString :=
  ((s.dropWhile isWhiteSpace).reverse.dropWhile isWhiteSpace).reverse

/-- The tail `(.*)\);$` of the pattern, tried at the start of `rest` with the group
taking `k` code units, then `k - 1`, down to none: the greedy star backtracking. -/
def matchTailFrom (rest : JsString) : Nat → Option JsString
  | 0 => if rest.drop 0 = u16 ");" then some (rest.take 0) else none
  | k + 1 =>
    if rest.drop (k + 1) = u16 ");" then some (rest.take (k + 1))
    else matchTailFrom rest k

/-- The pattern `VALUES \((.*)\);$` tried at the start of `s`; the result is the
captured group. -/
def matchAt (s : JsString) : Option JsString :=
  if (u16 "VALUES (").isPrefixOf s then
    matchTailFrom (s.drop 8)
      ((s.drop 8).takeWhile (fun c => !isLineTerminator c)).length
  else none

/-- The call `line.match(/VALUES \((.*)\);$/)`: the pattern tried at each start
position from the left; the result is the group of the first match. -/
def matchValues : JsString → Option JsString
  | [] => matchAt []
  | c :: cs =>
    match matchAt (c :: cs) with
    | some raw => some raw
    | none => matchValues cs

/-- The loop variables of `parseInsertValues`. -/
structure ScanState where
  values : List JsString
  current : JsString
  inString : Bool
  deriving DecidableEq, Repr

/-- One iteration of the loop of `parseInsertValues` over the code units of `raw`. -/
def scanStep (st : ScanState) (ch : Nat) : ScanState :=
  if ch = 39 then
    { st with inString := !st.inString, current := st.current ++ [ch] }
  else if ch = 44 ∧ st.inString = false then
    { st with values := st.values ++ [trim st.current], current := [] }
  else
    { st with current := st.current ++ [ch] }

/-- The call `s.replace(/''/g, "'")`: each pair of quotes, found from the left, becomes one. -/
def replaceQuotePairs : JsString → JsString
  | [] => []
  | [c] => [c]
  | c :: d :: rest =>
    if c = 39 ∧ d = 39 then 39 :: replaceQuotePairs rest
    else c :: replaceQuotePairs (d :: rest)

/-- The value of a string of decimal digits. -/
def digitsValue (ds : JsString) : Nat :=
  ds.foldl (fun acc c => acc * 10 + (c - 48)) 0

/-- The test for a non-empty string of decimal digits. -/
def isDigits (ds : JsString) : Bool :=
  decide (ds ≠ []) && ds.all (fun c => decide (48 ≤ c) && decide (c ≤ 57))

/-- The number of low bits that do not fit the 53-bit significand of a double:
how often `n` is halved before it is below 2^53; `fuel` bounds the halvings. -/
def excessBits : Nat → Nat → Nat
  | 0, _ => 0
  | fuel + 1, n => if n < 2 ^ 53 then 0 else excessBits fuel (n / 2) + 1

/-- The bound 2^1024, above every finite double. -/
def doubleLimit : Nat := 2 ^ 256 * 2 ^ 256 * 2 ^ 256 * 2 ^ 256

/-- The double nearest to a natural number, as a natural number: the number is cut
to 53 significant bits, rounding to nearest with ties to the even significand.  The
exponent is not bounded here; a result of `doubleLimit` or more stands for
`Infinity`. -/
def roundNat (n : Nat) : Nat :=
  if 2 * (n % 2 ^ excessBits n n) > 2 ^ excessBits n n
      ∨ (2 * (n % 2 ^ excessBits n n) = 2 ^ excessBits n n
          ∧ (n / 2 ^ excessBits n n) % 2 = 1) then
    (n / 2 ^ excessBits n n + 1) * 2 ^ excessBits n n
  else n / 2 ^ excessBits n n * 2 ^ excessBits n n

/-- The Number value of the decimal integer numeral `ds` read with a sign, for the
whole string `s`: the nearest double, and the parameter `numberOther` when that is
infinite. -/
def integerNumber (numberOther : JsString → JsVal) (s : JsString) (negative : Bool)
    (ds : JsString) : JsVal :=
  if roundNat (digitsValue ds) < doubleLimit then
    JsVal.num (if negative then -(roundNat (digitsValue ds) : Int)
      else (roundNat (digitsValue ds) : Int))
  else numberOther s

/-- The conversion `Number(s)` of a string.  The empty string is 0 and a decimal
integer numeral with an optional sign is the double nearest to its value (correctly
rounded, as engines do); every other string is given to `numberOther`, which stands
for the conversion of the remaining numeric literals (fractions, exponents, radix
prefixes, `Infinity`, numerals too large for a finite double) and of non-numeric
text. -/
def jsNumber (numberOther : JsString → JsVal) (s : JsString) : JsVal :=
  match trim s with
  | [] => JsVal.num 0
  | c :: ds =>
    if c = 45 ∧ isDigits ds = true then integerNumber numberOther (c :: ds) true ds
    else if c = 43 ∧ isDigits ds = true then integerNumber numberOther (c :: ds) false ds
    else if isDigits (c :: ds) = true then
      integerNumber numberOther (c :: ds) false (c :: ds)
    else numberOther (c :: ds)

/-- The callback of `values.map` in `parseInsertValues`. -/
def decodeValue (numberOther : JsString → JsVal) (value : JsString) : JsVal :=
  if value = u16 "NULL" then JsVal.null
  else if value.head? = some 39 ∧ value.getLast? = some 39 then
    JsVal.str (replaceQuotePairs (value.drop 1).dropLast)
  else jsNumber numberOther value

/-- The function `parseInsertValues(line)`; `none` is the `null` returned when the
line does not match. -/
def parseInsertValues (numberOther : JsString → JsVal) (line : JsString) :
    Option (List JsVal) :=
  match matchValues line with
  | none => none
  | some raw =>
    let final := raw.foldl scanStep { values := [], current := [], inString := false }
    some ((final.values ++ [trim final.current]).map (decodeValue numberOther))

/-- The call `text.split(/\r?\n/)`, with `cur` the line read so far. -/
def splitLines : JsString → JsString → List JsString
  | [], cur => [cur]
  | [c], cur => if c = 10 then [cur, []] else [cur ++ [c]]
  | c :: d :: rest, cur =>
    if c = 10 then cur :: splitLines (d :: rest) []
    else if c = 13 ∧ d = 10 then cur :: splitLines rest []
    else splitLines (d :: rest) (cur ++ [c])

/-- The element `values[i]`, `undefined` past the end. -/
def valueAt (values : List JsVal) (i : Nat) : JsVal := values.getD i JsVal.undefined

/-- One iteration of the loop of `parseSqlText` over the lines. -/
def parseSqlLine (numberOther : JsString → JsVal) (state : State) (line : JsString) :
    Option State :=
  if (u16 "INSERT INTO \"RoomInfo\"").isPrefixOf line then
    match parseInsertValues numberOther line with
    | none => some state
    | some values =>
      addRoom state
        { id := valueAt values 0, number := valueAt values 1, floor := valueAt values 2,
          type := valueAt values 3, x := valueAt values 4, y := valueAt values 5,
          width := valueAt values 6, height := valueAt values 7 }
  else if (u16 "INSERT INTO \"ClassInfo\"").isPrefixOf line then
    match parseInsertValues numberOther line with
    | none => some state
    | some values =>
      some (addClassInfo state
        { scheduleId := valueAt values 0, teacher := valueAt values 1,
          grade := valueAt values 2, className := valueAt values 3 })
  else if (u16 "INSERT INTO \"ClassSchedule\"").isPrefixOf line then
    match parseInsertValues numberOther line with
    | none => some state
    | some values =>
      some { state with
        schedules := state.schedules ++
          [{ scheduleId := valueAt values 0, classId := valueAt values 1,
             day := valueAt values 2, period := valueAt values 3,
             roomId := valueAt values 4 }] }
  else some state

/-- The function `parseSqlText(text)`, acting on the current `state`. -/
def parseSqlText (numberOther : JsString → JsVal) (text : JsString) (state : State) :
    Option State := do
  let parsed ← (splitLines text []).foldlM (parseSqlLine numberOther) state
  pure (deriveSets parsed)

/-! ## The status text of the table renderer -/

/-- The field `classInfo.f` of `classInfoBySchedule.get(id) || {}`: `undefined` on
the empty object. -/
def classField (classInfo : Option ClassInfo) (f : ClassInfo → JsVal) : JsVal :=
  match classInfo with
  | some info => f info
  | none => JsVal.undefined

/-- The expression `a || b`. -/
def orElse (a b : JsVal) : JsVal := if truthy a then a else b

/-- The callback of `useEntries.map` in the table variant of `drawRooms`. -/
def entryLabel (state : State) (entry : Entry) : JsString :=
  let classInfo := JsMap.get state.classInfoBySchedule entry.scheduleId
  let teacher := orElse (classField classInfo (fun i => i.teacher)) (JsVal.str (u16 "Unknown"))
  let className := orElse (classField classInfo (fun i => i.className)) (JsVal.str (u16 "Class"))
  let grade : JsString :=
    if truthy (classField classInfo (fun i => i.grade)) then
      u16 "Grade " ++ toStr (classField classInfo (fun i => i.grade))
    else []
  toStr className ++ u16 " - " ++ toStr teacher
    ++ (if grade ≠ [] then u16 " (" ++ grade ++ u16 ")" else [])

/-- The method `xs.join(sep)` on an array of strings. -/
def join (sep : JsString) : List JsString → JsString
  | [] => []
  | [x] => x
  | x :: y :: rest => x ++ sep ++ join sep (y :: rest)

/-- The text of the status cell that `drawRooms` writes for `useEntries`, the value
of `occupancy.get(room.id)`. -/
def statusText (state : State) (useEntries : Option (List Entry)) : JsString :=
  match useEntries with
  | none => u16 "Available"
  | some entries =>
    if entries.length ≠ 0 then join (u16 "; ") (entries.map (entryLabel state))
    else u16 "Available"

/-! ## Reference definitions for the statements -/

/-- An entry belongs to room `r` for a filter: its day and period are the requested
ones and its room id resolves through `roomsById` to a room with id `r` on the
requested floor. -/
def matchesKey (state : State) (day period floor r : JsVal) (e : Entry) : Bool :=
  decide (e.day = day) && decide (e.period = period) &&
    (match JsMap.get state.roomsById e.roomId with
     | some room => decide (room.id = r) && decide (room.floor = floor)
     | none => false)

/-- The entries that the occupancy of room `r` should hold: the subsequence of the
schedule, in its order, of the entries that belong to `r` for the filter. -/
def entriesFor (state : State) (day period floor r : JsVal) : List Entry :=
  state.schedules.filter (matchesKey state day period floor r)

/-- Appending `v` to the list under `k`, with a new key placed last: the closed form
of the guarded push. -/
def appendAt {V : Type} : JsMap (List V) → JsVal → V → JsMap (List V)
  | [], k, v => [(k, [v])]
  | (k0, vs) :: m, k, v =>
    if k0 = k then (k0, vs ++ [v]) :: m else (k0, vs) :: appendAt m k v

/-- The test that the loop of `getOccupancy` applies to an entry before it pushes
it under the key `r`: the two strict comparisons, the lookup of the room, the strict
comparison of its floor, and `r` being the id of that room. -/
def passes (state : State) (day period floor r : JsVal) (e : Entry) : Bool :=
  strictEq e.day day && strictEq e.period period &&
    (match JsMap.get state.roomsById e.roomId with
     | some room => strictEq room.floor floor && decide (room.id = r)
     | none => false)

/-- A schedule entry is dangling when its room id is not a key of `roomsById`. -/
def dangling (state : State) (e : Entry) : Bool := !JsMap.has state.roomsById e.roomId

/-- The code unit of a decimal digit. -/
def isDigitUnit (c : Nat) : Prop := 48 ≤ c ∧ c ≤ 57

/-- A string with each single quote in it doubled. -/
def doubleQuotes : JsString → JsString
  | [] => []
  | c :: s => if c = 39 then 39 :: 39 :: doubleQuotes s else c :: doubleQuotes s

/-- The literal of a value in an insert statement: `NULL`, the decimal numeral, or
the string in single quotes with each quote inside it doubled. -/
def sqlLiteral : JsVal → JsString
  | .null => u16 "NULL"
  | .num n => intToString n
  | .str s => 39 :: doubleQuotes s ++ [39]
  | .undefined => u16 "NULL"
  | .nan => u16 "NULL"

/-- The statement `INSERT INTO "T" VALUES (l1, l2, ..., ln);` for a table name and
a list of values. -/
def insertLine (table : JsString) (vs : List JsVal) : JsString :=
  u16 "INSERT INTO \"" ++ table ++ u16 "\" VALUES (" ++ join (u16 ", ") (vs.map sqlLiteral)
    ++ u16 ");"

/-- A value that a dump can carry: `null`, an integer, or a string with no line
terminator. -/
def sqlValue : JsVal → Bool
  | .null => true
  | .num _ => true
  | .str s => s.all (fun c => !isLineTerminator c)
  | .undefined => false
  | .nan => false

/-- An integer that a double holds exactly: rounding leaves it unchanged and it is
finite.  Every integer of magnitude at most 2^53 is one. -/
def isDoubleInt (n : Int) : Bool :=
  decide (roundNat n.natAbs = n.natAbs) && decide (n.natAbs < doubleLimit)

/-- A value whose integer, if it is one, a double holds exactly. -/
def exactValue : JsVal → Bool
  | .num n => isDoubleInt n
  | _ => true

/-- The value that a loader receives for a row value written as a number literal or
a string: an integer arrives as `Number` converts its decimal numeral, every other
value as it is. -/
def jsonValue (numberOther : JsString → JsVal) : JsVal → JsVal
  | .num n => jsNumber numberOther (intToString n)
  | v => v

/-- A field is present when it is neither `undefined` nor `null`. -/
def present (v : JsVal) : Bool := decide (v ≠ JsVal.undefined) && decide (v ≠ JsVal.null)

/-- The label of an entry as the specification words it: the class name, or `Class`
when there is no class info or no class name; the teacher, or `Unknown` when there
is no class info or no teacher; and the suffix ` (Grade g)` exactly when the class
info has a grade that is present and not 0. -/
def statedLabel (info : Option ClassInfo) : JsString :=
  let className :=
    if present (classField info (fun i => i.className)) then
      toStr (classField info (fun i => i.className))
    else u16 "Class"
  let teacher :=
    if present (classField info (fun i => i.teacher)) then
      toStr (classField info (fun i => i.teacher))
    else u16 "Unknown"
  let suffix :=
    if present (classField info (fun i => i.grade)) ∧
        classField info (fun i => i.grade) ≠ JsVal.num 0 then
      u16 " (Grade " ++ toStr (classField info (fun i => i.grade)) ++ u16 ")"
    else []
  className ++ u16 " - " ++ teacher ++ suffix

/-- The label of an entry with truthiness in place of presence: a field that is
`undefined`, `null`, 0, `NaN` or the empty string counts as missing. -/
def truthyLabel (info : Option ClassInfo) : JsString :=
  let className :=
    if truthy (classField info (fun i => i.className)) then
      toStr (classField info (fun i => i.className))
    else u16 "Class"
  let teacher :=
    if truthy (classField info (fun i => i.teacher)) then
      toStr (classField info (fun i => i.teacher))
    else u16 "Unknown"
  let suffix :=
    if truthy (classField info (fun i => i.grade)) then
      u16 " (Grade " ++ toStr (classField info (fun i => i.grade)) ++ u16 ")"
    else []
  className ++ u16 " - " ++ teacher ++ suffix

/-- A field on which presence and truthiness agree, apart from the number 0: it is
neither `NaN` nor the empty string. -/
def plainField (v : JsVal) : Bool := decide (v ≠ JsVal.nan) && decide (v ≠ JsVal.str [])

/-- The closed form of `addRoom`. -/
def registerRoom (state : State) (room : Room) : State :=
  { state with
    roomsById := JsMap.set state.roomsById room.id room
    roomsByFloor := appendAt state.roomsByFloor room.floor room }

/-- The store determined by a list of rooms, of class infos and of schedule entries,
each in load order: what a load into the empty store should produce. -/
def buildStore (rooms : List Room) (infos : List ClassInfo) (entries : List Entry) : State :=
  deriveSets
    { roomsById := rooms.foldl (fun m room => JsMap.set m room.id room) []
      roomsByFloor := rooms.foldl (fun m room => appendAt m room.floor room) []
      classInfoBySchedule := infos.foldl (fun m info => JsMap.set m info.scheduleId info) []
      schedules := entries
      days := []
      periods := [] }

/-- A floor index groups a list of rooms: the list under a floor is exactly the
subsequence of the rooms on that floor, in order; a floor with no room is not a key;
and every room is in the list of exactly one floor. -/
def groupsByFloor (roomsByFloor : JsMap (List Room)) (rooms : List Room) : Prop :=
  (∀ f, rooms.filter (fun room => decide (room.floor = f)) ≠ [] →
    JsMap.get roomsByFloor f = some (rooms.filter (fun room => decide (room.floor = f)))) ∧
  (∀ f, rooms.filter (fun room => decide (room.floor = f)) = [] →
    JsMap.has roomsByFloor f = false) ∧
  (∀ room ∈ rooms, ∃! f, ∃ l, JsMap.get roomsByFloor f = some l ∧ room ∈ l)

/-- The insert statement of a room row, with the values in column order. -/
def roomLine (row : RoomRow) : JsString :=
  insertLine (u16 "RoomInfo")
    [row.RoomID, row.RoomNumber, row.RoomFloor, row.RoomType, row.X, row.Y, row.Width,
     row.Height]

/-- The insert statement of a class-info row. -/
def classInfoLine (row : ClassInfoRow) : JsString :=
  insertLine (u16 "ClassInfo") [row.ScheduleID, row.TeacherName, row.GradeLevel, row.ClassName]

/-- The insert statement of a schedule row. -/
def scheduleLine (row : ScheduleRow) : JsString :=
  insertLine (u16 "ClassSchedule")
    [row.ScheduleID, row.ClassID, row.Day, row.Period, row.RoomID]

/-- The lines of the dump of a data set: one statement per row, table by table. -/
def dumpLines (data : Data) : List JsString :=
  data.rooms.map roomLine ++ data.classInfo.map classInfoLine
    ++ data.schedules.map scheduleLine

/-- A text made of lines, each ended by a line feed. -/
def unlines (lines : List JsString) : JsString :=
  lines.foldr (fun line rest => line ++ 10 :: rest) []

/-- The insert-statement dump of a data set. -/
def dumpOf (data : Data) : JsString := unlines (dumpLines data)

/-- Every field of every row is `null`, an integer or a string with no line
terminator. -/
def validData (data : Data) : Bool :=
  data.rooms.all (fun row =>
      [row.RoomID, row.RoomNumber, row.RoomFloor, row.RoomType, row.X, row.Y, row.Width,
       row.Height].all sqlValue)
    && data.classInfo.all (fun row =>
      [row.ScheduleID, row.TeacherName, row.GradeLevel, row.ClassName].all sqlValue)
    && data.schedules.all (fun row =>
      [row.ScheduleID, row.ClassID, row.Day, row.Period, row.RoomID].all sqlValue)

/-- A room row as the JSON loader receives it: each field as `jsonValue` gives it. -/
def jsonRoomRow (numberOther : JsString → JsVal) (row : RoomRow) : RoomRow :=
  { RoomID := jsonValue numberOther row.RoomID
    RoomNumber := jsonValue numberOther row.RoomNumber
    RoomFloor := jsonValue numberOther row.RoomFloor
    RoomType := jsonValue numberOther row.RoomType
    X := jsonValue numberOther row.X
    Y := jsonValue numberOther row.Y
    Width := jsonValue numberOther row.Width
    Height := jsonValue numberOther row.Height }

/-- A class-info row as the JSON loader receives it. -/
def jsonClassInfoRow (numberOther : JsString → JsVal) (row : ClassInfoRow) : ClassInfoRow :=
  { ScheduleID := jsonValue numberOther row.ScheduleID
    TeacherName := jsonValue numberOther row.TeacherName
    GradeLevel := jsonValue numberOther row.GradeLevel
    ClassName := jsonValue numberOther row.ClassName }

/-- A schedule row as the JSON loader receives it. -/
def jsonScheduleRow (numberOther : JsString → JsVal) (row : ScheduleRow) : ScheduleRow :=
  { ScheduleID := jsonValue numberOther row.ScheduleID
    ClassID := jsonValue numberOther row.ClassID
    Day := jsonValue numberOther row.Day
    Period := jsonValue numberOther row.Period
    RoomID := jsonValue numberOther row.RoomID }

/-- The JSON document `{rooms, classInfo, schedules}` of the rows of a data set, as
`loadData` receives it: a number is a double in JavaScript, so each integer of a row
arrives as the double nearest to it, which is the integer itself whenever a double
holds it exactly. -/
def jsonDocument (numberOther : JsString → JsVal) (data : Data) : Data :=
  { rooms := data.rooms.map (jsonRoomRow numberOther)
    classInfo := data.classInfo.map (jsonClassInfoRow numberOther)
    schedules := data.schedules.map (jsonScheduleRow numberOther) }

/-- Every integer in the data set is one that a double holds exactly. -/
def exactData (data : Data) : Bool :=
  data.rooms.all (fun row =>
      [row.RoomID, row.RoomNumber, row.RoomFloor, row.RoomType, row.X, row.Y, row.Width,
       row.Height].all exactValue)
    && data.classInfo.all (fun row =>
      [row.ScheduleID, row.TeacherName, row.GradeLevel, row.ClassName].all exactValue)
    && data.schedules.all (fun row =>
      [row.ScheduleID, row.ClassID, row.Day, row.Period, row.RoomID].all exactValue)

/-- What a line of a dump contributes to the store. -/
inductive ParsedRow where
  | room (r : Room)
  | info (i : ClassInfo)
  | entry (e : Entry)
  deriving DecidableEq, Repr

/-- The record that `parseSqlText` reads from a line, when the line starts with one
of the three insert-statement prefixes and `parseInsertValues` accepts it. -/
def parsedRow (numberOther : JsString → JsVal) (line : JsString) : Option ParsedRow :=
  if (u16 "INSERT INTO \"RoomInfo\"").isPrefixOf line then
    (parseInsertValues numberOther line).map (fun values => ParsedRow.room
      { id := valueAt values 0, number := valueAt values 1, floor := valueAt values 2,
        type := valueAt values 3, x := valueAt values 4, y := valueAt values 5,
        width := valueAt values 6, height := valueAt values 7 })
  else if (u16 "INSERT INTO \"ClassInfo\"").isPrefixOf line then
    (parseInsertValues numberOther line).map (fun values => ParsedRow.info
      { scheduleId := valueAt values 0, teacher := valueAt values 1,
        grade := valueAt values 2, className := valueAt values 3 })
  else if (u16 "INSERT INTO \"ClassSchedule\"").isPrefixOf line then
    (parseInsertValues numberOther line).map (fun values => ParsedRow.entry
      { scheduleId := valueAt values 0, classId := valueAt values 1,
        day := valueAt values 2, period := valueAt values 3,
        roomId := valueAt values 4 })
  else none

/-- The closed form of one iteration of `parseSqlText`. -/
def applyRow (state : State) : Option ParsedRow → State
  | none => state
  | some (ParsedRow.room r) => registerRoom state r
  | some (ParsedRow.info i) => addClassInfo state i
  | some (ParsedRow.entry e) => { state with schedules := state.schedules ++ [e] }

/-- The rooms among parsed rows, in order. -/
def roomsOf (rows : List (Option ParsedRow)) : List Room :=
  rows.filterMap (fun row => match row with
    | some (ParsedRow.room r) => some r
    | _ => none)

/-- The class infos among parsed rows, in order. -/
def infosOf (rows : List (Option ParsedRow)) : List ClassInfo :=
  rows.filterMap (fun row => match row with
    | some (ParsedRow.info i) => some i
    | _ => none)

/-- The schedule entries among parsed rows, in order. -/
def entriesOf (rows : List (Option ParsedRow)) : List Entry :=
  rows.filterMap (fun row => match row with
    | some (ParsedRow.entry e) => some e
    | _ => none)

/-- The rows that `parseSqlText` reads from a text, line by line. -/
def sqlRows (numberOther : JsString → JsVal) (text : JsString) : List (Option ParsedRow) :=
  (splitLines text []).map (parsedRow numberOther)

/-- The value is a string. -/
def isStr : JsVal → Bool
  | .str _ => true
  | _ => false

/-- A sequence of values is strictly ascending when its elements are strings, each
below every later one in code-unit order: ascending and free of duplicates. -/
def strictlyAscending (vs : List JsVal) : Prop :=
  vs.Pairwise (fun a b => ∃ s t, a = JsVal.str s ∧ b = JsVal.str t ∧ strLt s t = true)

/-! ## A sample data set -/

/-- A room row on a floor, with only its id and floor filled in. -/
def sampleRoom (id floor : Int) : RoomRow :=
  { RoomID := JsVal.num id, RoomNumber := JsVal.str (natToString id.toNat),
    RoomFloor := JsVal.num floor, RoomType := JsVal.null, X := JsVal.num 0,
    Y := JsVal.num 0, Width := JsVal.num 10, Height := JsVal.num 10 }

/-- A schedule row on `Day1`, `P1`. -/
def sampleSchedule (scheduleId roomId : Int) : ScheduleRow :=
  { ScheduleID := JsVal.num scheduleId, ClassID := JsVal.num 1,
    Day := JsVal.str (u16 "Day1"), Period := JsVal.str (u16 "P1"),
    RoomID := JsVal.num roomId }

/-- The scenario of the specification, with room 1 booked twice and one entry that
refers to a room 99 that does not exist. -/
def sampleData : Data :=
  { rooms := [sampleRoom 1 0, sampleRoom 2 0],
    classInfo := [{ ScheduleID := JsVal.num 10, TeacherName := JsVal.str (u16 "Smith"),
                    GradeLevel := JsVal.num 9, ClassName := JsVal.str (u16 "Math") }],
    schedules := [sampleSchedule 10 1, sampleSchedule 12 99, sampleSchedule 11 1] }

/-- A data set with three schedule rows on two days and two periods, out of order. -/
def sampleWeek : Data :=
  { rooms := [sampleRoom 1 0],
    classInfo := [],
    schedules :=
      [{ sampleSchedule 20 1 with Day := JsVal.str (u16 "Day2"), Period := JsVal.str (u16 "P3") },
       sampleSchedule 21 1,
       { sampleSchedule 22 1 with Day := JsVal.str (u16 "Day2") }] }

/-- The dump of the schedule rows of `sampleWeek`. -/
def sampleWeekDump : JsString :=
  u16 "INSERT INTO \"ClassSchedule\" VALUES (20, 1, 'Day2', 'P3', 1);\nINSERT INTO \"ClassSchedule\" VALUES (21, 1, 'Day1', 'P1', 1);\nINSERT INTO \"ClassSchedule\" VALUES (22, 1, 'Day2', 'P1', 1);\n"

/-- A conversion for the strings that `jsNumber` leaves to its parameter, used where
a concrete one is needed: every such string converts to `NaN`. -/
def numberNaN : JsString → JsVal := fun _ => JsVal.nan

/-- The class info of schedule 10: teacher Smith, class Math, with the given grade. -/
def smithMath (grade : JsVal) : ClassInfo :=
  { scheduleId := JsVal.num 10, teacher := JsVal.str (u16 "Smith"), grade := grade,
    className := JsVal.str (u16 "Math") }

/-- A store with one class info, for schedule 10, with the given grade. -/
def gradeState (grade : JsVal) : State :=
  { emptyState with classInfoBySchedule := [(JsVal.num 10, smithMath grade)] }

/-- The store that `loadData` builds from the sample data. -/
def sampleState : State :=
  { roomsById := [(JsVal.num 1, roomData (sampleRoom 1 0)), (JsVal.num 2, roomData (sampleRoom 2 0))],
    roomsByFloor := [(JsVal.num 0, [roomData (sampleRoom 1 0), roomData (sampleRoom 2 0)])],
    classInfoBySchedule := [(JsVal.num 10, classInfoData
        { ScheduleID := JsVal.num 10, TeacherName := JsVal.str (u16 "Smith"),
          GradeLevel := JsVal.num 9, ClassName := JsVal.str (u16 "Math") })],
    schedules := [entryData (sampleSchedule 10 1), entryData (sampleSchedule 12 99),
      entryData (sampleSchedule 11 1)],
    days := [JsVal.str (u16 "Day1")],
    periods := [JsVal.str (u16 "P1")] }

/-! ## The filter controls -/

/-- The conversion to a number that the subtraction `a - b` applies to each operand;
`none` is `NaN`. -/
def toNumber (numberOther : JsString → JsVal) : JsVal → Option Int
  | .undefined => none
  | .null => some 0
  | .nan => none
  | .num n => some n
  | .str s =>
    match jsNumber numberOther s with
    | .num n => some n
    | _ => none

/-- The comparator `(a, b) => a - b` does not ask for `a` after `b`: the difference
is not positive, a `NaN` difference counting as 0. -/
def floorLe (numberOther : JsString → JsVal) (a b : JsVal) : Prop :=
  match toNumber numberOther a, toNumber numberOther b with
  | some x, some y => x ≤ y
  | _, _ => True

instance (numberOther : JsString → JsVal) : DecidableRel (floorLe numberOther) :=
  fun a b => by unfold floorLe; split <;> infer_instance

/-- The call `xs.sort((a, b) => a - b)`: a stable sort by the comparator, with every
`undefined` moved to the end.  Where the comparator is not a consistent order (keys
that convert to `NaN` among numbers) the language leaves the order to the
implementation; this definition then gives the order of a stable insertion sort. -/
def sortFloors (numberOther : JsString → JsVal) (xs : List JsVal) : List JsVal :=
  (xs.filter (fun v => decide (v ≠ JsVal.undefined))).insertionSort (floorLe numberOther)
    ++ xs.filter (fun v => decide (v = JsVal.undefined))

/-- The values that `buildFilters` assigns to `daySelect.value`, `periodSelect.value`
and `floorSelect.value`. -/
structure Selection where
  day : JsVal
  period : JsVal
  floor : JsVal
  deriving DecidableEq, Repr

/-- The function `buildFilters()` of both variants, as the three values it assigns.
The labelers of the day and period options call `value.replace`, which exists on
strings only, so the function throws (`none`) when a day or a period is not a
string; the labeler of the floor options never throws. -/
def buildFilters (numberOther : JsString → JsVal) (state : State) : Option Selection :=
  if state.days.all isStr && state.periods.all isStr then
    let floors := sortFloors numberOther (JsMap.keys state.roomsByFloor)
    some
      { day := orElse (state.days.getD 0 JsVal.undefined) (JsVal.str [])
        period := orElse (state.periods.getD 0 JsVal.undefined) (JsVal.str [])
        floor := orElse (floors.getD 0 JsVal.undefined) (JsVal.str []) }
  else none

/-- A store whose only floor is floor 4, otherwise the sample store. -/
def sampleUpperState : State :=
  { roomsById := [(JsVal.num 1, roomData (sampleRoom 1 4))],
    roomsByFloor := [(JsVal.num 4, [roomData (sampleRoom 1 4)])],
    classInfoBySchedule := [],
    schedules := [entryData (sampleSchedule 10 1)],
    days := [JsVal.str (u16 "Day1")],
    periods := [JsVal.str (u16 "P1")] }

/-! ## Lemmas on values and maps -/

theorem strictEq_true_iff (a b : JsVal) : strictEq a b = true ↔ a = b ∧ b ≠ JsVal.nan := by
  cases a <;> simp [strictEq] <;> intro h <;> subst h <;> simp

theorem strictEq_of_ne_nan (a b : JsVal) (hb : b ≠ JsVal.nan) :
    strictEq a b = decide (a = b) := by
  by_cases h : a = b
  · have : strictEq a b = true := (strictEq_true_iff a b).2 ⟨h, hb⟩
    rw [this]
    simp [h]
  · have : strictEq a b ≠ true := fun hs => h ((strictEq_true_iff a b).1 hs).1
    simp [h, this]

theorem get_set {V : Type} (m : JsMap V) (k : JsVal) (v : V) (k2 : JsVal) :
    JsMap.get (JsMap.set m k v) k2 = if k = k2 then some v else JsMap.get m k2 := by
  induction m with
  | nil => simp [JsMap.set, JsMap.get]
  | cons p m ih =>
    obtain ⟨k0, v0⟩ := p
    by_cases h0 : k0 = k
    · subst h0
      by_cases h1 : k0 = k2 <;> simp [JsMap.set, JsMap.get, h1]
    · by_cases h1 : k0 = k2
      · subst h1
        have h2 : ¬ k = k0 := fun h => h0 h.symm
        simp [JsMap.set, JsMap.get, h0, h2]
      · simp [JsMap.set, JsMap.get, h0, h1, ih]

theorem pushAt_of_get {V : Type} (m : JsMap (List V)) (k : JsVal) (v : V) (vs : List V)
    (h : JsMap.get m k = some vs) :
    ∃ m2, JsMap.pushAt m k v = some m2 ∧
      ∀ k2, JsMap.get m2 k2 = if k = k2 then some (vs ++ [v]) else JsMap.get m k2 := by
  induction m with
  | nil => simp [JsMap.get] at h
  | cons p m ih =>
    obtain ⟨k0, v0⟩ := p
    by_cases h0 : k0 = k
    · subst h0
      have hv : v0 = vs := by simpa [JsMap.get] using h
      subst hv
      refine ⟨(k0, v0 ++ [v]) :: m, by simp [JsMap.pushAt], ?_⟩
      intro k2
      by_cases h1 : k0 = k2 <;> simp [JsMap.get, h1]
    · simp only [JsMap.get, h0, if_false] at h
      obtain ⟨m2, hm2, hget⟩ := ih h
      refine ⟨(k0, v0) :: m2, by simp [JsMap.pushAt, h0, hm2], ?_⟩
      intro k2
      by_cases h1 : k0 = k2
      · subst h1
        have h2 : ¬ k = k0 := fun h => h0 h.symm
        simp [JsMap.get, h2]
      · simp [JsMap.get, h1, hget]

/-- The pattern `if (!m.has(k)) m.set(k, []); m.get(k).push(v)` never throws, and
appends `v` to the list under `k`, which starts empty when `k` is new. -/
theorem ensure_pushAt {V : Type} (m : JsMap (List V)) (k : JsVal) (v : V) :
    ∃ m2, JsMap.pushAt (if JsMap.has m k then m else JsMap.set m k []) k v = some m2 ∧
      ∀ k2, JsMap.get m2 k2 =
        if k = k2 then some ((JsMap.get m k).getD [] ++ [v]) else JsMap.get m k2 := by
  cases hk : JsMap.get m k with
  | none =>
    have hhas : JsMap.has m k = false := by simp [JsMap.has, hk]
    obtain ⟨m2, hm2, hget⟩ := pushAt_of_get (JsMap.set m k []) k v []
      (by simp [get_set])
    refine ⟨m2, by simp [hhas, hm2], ?_⟩
    intro k2
    rw [hget k2, get_set]
    by_cases h : k = k2 <;> simp [h]
  | some vs =>
    have hhas : JsMap.has m k = true := by simp [JsMap.has, hk]
    obtain ⟨m2, hm2, hget⟩ := pushAt_of_get m k v vs hk
    exact ⟨m2, by simp [hhas, hm2], fun k2 => by rw [hget k2]; rfl⟩

/-! ## The occupancy resolver: what the loop computes -/

theorem occupancyStep_spec (state : State) (day period floor : JsVal)
    (occ : JsMap (List Entry)) (e : Entry) :
    ∃ occ2, occupancyStep state day period floor occ e = some occ2 ∧
      ∀ r, JsMap.get occ2 r =
        if passes state day period floor r e = true
        then some ((JsMap.get occ r).getD [] ++ [e]) else JsMap.get occ r := by
  unfold occupancyStep passes
  by_cases hd : strictEq e.day day = true
  · by_cases hp : strictEq e.period period = true
    · cases hroom : JsMap.get state.roomsById e.roomId with
      | none => exact ⟨occ, by simp [hd, hp], fun r => by simp⟩
      | some room =>
        by_cases hf : strictEq room.floor floor = true
        · obtain ⟨m2, hm2, hget⟩ := ensure_pushAt occ room.id e
          refine ⟨m2, by simpa [hd, hp, hf] using hm2, ?_⟩
          intro r
          rw [hget r]
          by_cases hr : room.id = r
          · subst hr
            simp [hd, hp, hf]
          · simp [hd, hp, hf, hr]
        · exact ⟨occ, by simp [hd, hp, hf], fun r => by simp [hf]⟩
    · exact ⟨occ, by simp [hd, hp], fun r => by simp [hp]⟩
  · exact ⟨occ, by simp [hd], fun r => by simp [hd]⟩

theorem occupancy_foldlM_spec (state : State) (day period floor : JsVal) (l : List Entry) :
    ∀ occ : JsMap (List Entry),
      ∃ occ2, l.foldlM (occupancyStep state day period floor) occ = some occ2 ∧
        ∀ r, JsMap.get occ2 r =
          if l.filter (passes state day period floor r) = [] then JsMap.get occ r
          else some ((JsMap.get occ r).getD [] ++ l.filter (passes state day period floor r)) := by
  induction l with
  | nil => intro occ; exact ⟨occ, rfl, fun r => by simp⟩
  | cons e l ih =>
    intro occ
    obtain ⟨occ1, h1, hget1⟩ := occupancyStep_spec state day period floor occ e
    obtain ⟨occ2, h2, hget2⟩ := ih occ1
    refine ⟨occ2, by simp [List.foldlM, h1, h2], ?_⟩
    intro r
    rw [hget2 r, hget1 r]
    by_cases hp : passes state day period floor r e = true
    · by_cases hl : l.filter (passes state day period floor r) = [] <;>
        simp [List.filter, hp, hl]
    · by_cases hl : l.filter (passes state day period floor r) = [] <;>
        simp [List.filter, hp, hl]

/-- The resolver never throws, and the list under a key is the list of the entries
that pass the loop's tests for that key; a key with no such entry is absent. -/
theorem getOccupancy_spec (state : State) (day period floor : JsVal) :
    ∃ occ, getOccupancy state day period floor = some occ ∧
      ∀ r, JsMap.get occ r =
        if state.schedules.filter (passes state day period floor r) = [] then none
        else some (state.schedules.filter (passes state day period floor r)) := by
  obtain ⟨occ, h, hget⟩ := occupancy_foldlM_spec state day period floor state.schedules []
  exact ⟨occ, h, fun r => by rw [hget r]; simp [JsMap.get]⟩

theorem passes_imp_ne_nan (state : State) (day period floor r : JsVal) (e : Entry)
    (h : passes state day period floor r e = true) :
    day ≠ JsVal.nan ∧ period ≠ JsVal.nan ∧ floor ≠ JsVal.nan := by
  unfold passes at h
  cases hroom : JsMap.get state.roomsById e.roomId with
  | none => simp [hroom] at h
  | some room =>
    simp only [hroom, Bool.and_eq_true, decide_eq_true_eq] at h
    obtain ⟨⟨hd, hp⟩, hf, _⟩ := h
    exact ⟨((strictEq_true_iff _ _).1 hd).2, ((strictEq_true_iff _ _).1 hp).2,
      ((strictEq_true_iff _ _).1 hf).2⟩

theorem passes_eq_matchesKey (state : State) (day period floor r : JsVal) (e : Entry)
    (hd : day ≠ JsVal.nan) (hp : period ≠ JsVal.nan) (hf : floor ≠ JsVal.nan) :
    passes state day period floor r e = matchesKey state day period floor r e := by
  unfold passes matchesKey
  rw [strictEq_of_ne_nan _ _ hd, strictEq_of_ne_nan _ _ hp]
  cases hroom : JsMap.get state.roomsById e.roomId with
  | none => rfl
  | some room =>
    simp only [strictEq_of_ne_nan _ _ hf]
    rw [Bool.and_comm (decide (room.floor = floor))]

theorem passes_imp_matchesKey (state : State) (day period floor r : JsVal) (e : Entry)
    (h : passes state day period floor r e = true) :
    matchesKey state day period floor r e = true := by
  obtain ⟨hd, hp, hf⟩ := passes_imp_ne_nan state day period floor r e h
  rw [← passes_eq_matchesKey state day period floor r e hd hp hf]
  exact h

theorem filter_passes_eq_entriesFor (state : State) (day period floor r : JsVal)
    (h : state.schedules.filter (passes state day period floor r) ≠ []) :
    state.schedules.filter (passes state day period floor r)
      = entriesFor state day period floor r := by
  obtain ⟨e, he⟩ := List.exists_mem_of_ne_nil _ h
  obtain ⟨hd, hp, hf⟩ :=
    passes_imp_ne_nan state day period floor r e (List.mem_filter.1 he).2
  unfold entriesFor
  congr 1
  funext e2
  exact passes_eq_matchesKey state day period floor r e2 hd hp hf

theorem has_iff_get {V : Type} (m : JsMap V) (k : JsVal) :
    JsMap.has m k = true ↔ ∃ v, JsMap.get m k = some v := by
  unfold JsMap.has
  exact Option.isSome_iff_exists

/-! ## C1: the list under a key -/

/-- C1. For every store and every (day, period, floor), `getOccupancy` returns a
mapping in which the list stored under each key `r` is exactly the subsequence of
`state.schedules`, in order, of the entries whose day and period are the requested
ones and whose room id resolves through `roomsById` to a room with id `r` on the
requested floor; two entries for the same day, period and room both appear under
that one key, in load order. -/
theorem getOccupancy_list_under_key (state : State) (day period floor : JsVal) :
    ∃ occ, getOccupancy state day period floor = some occ ∧
      (∀ r, JsMap.has occ r = true →
        JsMap.get occ r = some (entriesFor state day period floor r)) ∧
      (∀ (e1 e2 : Entry) (room : Room) (pre mid post : List Entry),
        state.schedules = pre ++ e1 :: (mid ++ e2 :: post) →
        strictEq e1.day day = true → strictEq e1.period period = true →
        e2.day = e1.day → e2.period = e1.period → e2.roomId = e1.roomId →
        JsMap.get state.roomsById e1.roomId = some room →
        strictEq room.floor floor = true →
        ∃ l, JsMap.get occ room.id = some l ∧ List.Sublist [e1, e2] l) := by
  obtain ⟨occ, hocc, hget⟩ := getOccupancy_spec state day period floor
  refine ⟨occ, hocc, ?_, ?_⟩
  · intro r hr
    obtain ⟨v, hv⟩ := (has_iff_get occ r).1 hr
    by_cases hne : state.schedules.filter (passes state day period floor r) = []
    · rw [hget r, if_pos hne] at hv
      cases hv
    · rw [hget r, if_neg hne, filter_passes_eq_entriesFor state day period floor r hne]
  · intro e1 e2 room pre mid post hs hd hp hd2 hp2 hr2 hroom hf
    have h1 : passes state day period floor room.id e1 = true := by
      simp [passes, hd, hp, hroom, hf]
    have h2 : passes state day period floor room.id e2 = true := by
      simp [passes, hd2, hp2, hr2, hd, hp, hroom, hf]
    have hne : state.schedules.filter (passes state day period floor room.id) ≠ [] := by
      rw [hs]
      simp [List.filter_append, List.filter, h1]
    refine ⟨_, by rw [hget room.id, if_neg hne], ?_⟩
    rw [hs]
    simp only [List.filter_append, List.filter, h1, h2]
    refine List.Sublist.trans ?_ (List.sublist_append_right _ _)
    exact List.Sublist.cons₂ _
      (List.Sublist.trans (List.Sublist.cons₂ _ (List.nil_sublist _))
        (List.sublist_append_right _ _))

/-- The sample store at (Day1, P1, floor 0): room 1 is a key and carries its two
entries in load order. -/
theorem getOccupancy_list_under_key_witness :
    ∃ occ, getOccupancy sampleState (JsVal.str (u16 "Day1")) (JsVal.str (u16 "P1"))
        (JsVal.num 0) = some occ ∧
      JsMap.has occ (JsVal.num 1) = true ∧
      JsMap.get occ (JsVal.num 1)
        = some [entryData (sampleSchedule 10 1), entryData (sampleSchedule 11 1)] := by
  obtain ⟨occ, hocc, hlist, _⟩ := getOccupancy_list_under_key sampleState
    (JsVal.str (u16 "Day1")) (JsVal.str (u16 "P1")) (JsVal.num 0)
  have hval : getOccupancy sampleState (JsVal.str (u16 "Day1")) (JsVal.str (u16 "P1"))
      (JsVal.num 0)
      = some [(JsVal.num 1, [entryData (sampleSchedule 10 1), entryData (sampleSchedule 11 1)])] := by
    decide
  have hocc2 : occ = [(JsVal.num 1, [entryData (sampleSchedule 10 1), entryData (sampleSchedule 11 1)])] :=
    Option.some.inj (hocc.symm.trans hval)
  have hhas : JsMap.has occ (JsVal.num 1) = true := by rw [hocc2]; decide
  refine ⟨occ, hocc, hhas, ?_⟩
  rw [hlist (JsVal.num 1) hhas]
  decide

/-! ## C2: no key carries an empty list -/

/-- C2. For every store and every (day, period, floor), every key of the mapping
returned by `getOccupancy` carries a non-empty list, and a room with no schedule
entry matching the day and period on that floor is not a key. -/
theorem getOccupancy_keys_nonempty (state : State) (day period floor : JsVal) :
    ∃ occ, getOccupancy state day period floor = some occ ∧
      (∀ r, JsMap.has occ r = true → ∃ l, JsMap.get occ r = some l ∧ l ≠ []) ∧
      (∀ r, entriesFor state day period floor r = [] → JsMap.has occ r = false) := by
  obtain ⟨occ, hocc, hget⟩ := getOccupancy_spec state day period floor
  refine ⟨occ, hocc, ?_, ?_⟩
  · intro r hr
    obtain ⟨v, hv⟩ := (has_iff_get occ r).1 hr
    by_cases hne : state.schedules.filter (passes state day period floor r) = []
    · rw [hget r, if_pos hne] at hv
      cases hv
    · exact ⟨_, by rw [hget r, if_neg hne], hne⟩
  · intro r hr
    have hnil : state.schedules.filter (passes state day period floor r) = [] := by
      rw [List.filter_eq_nil_iff]
      intro e he hpass
      have hm := passes_imp_matchesKey state day period floor r e hpass
      have : e ∈ entriesFor state day period floor r := List.mem_filter.2 ⟨he, hm⟩
      rw [hr] at this
      cases this
    simp [JsMap.has, hget r, hnil]

/-- The sample store at (Day1, P1, floor 0): room 1 is a key with a non-empty list,
and room 2, which has no entry, is not a key. -/
theorem getOccupancy_keys_nonempty_witness :
    ∃ occ, getOccupancy sampleState (JsVal.str (u16 "Day1")) (JsVal.str (u16 "P1"))
        (JsVal.num 0) = some occ ∧
      JsMap.has occ (JsVal.num 1) = true ∧
      (∃ l, JsMap.get occ (JsVal.num 1) = some l ∧ l ≠ []) ∧
      JsMap.has occ (JsVal.num 2) = false := by
  obtain ⟨occ, hocc, hne, habs⟩ := getOccupancy_keys_nonempty sampleState
    (JsVal.str (u16 "Day1")) (JsVal.str (u16 "P1")) (JsVal.num 0)
  have hval : getOccupancy sampleState (JsVal.str (u16 "Day1")) (JsVal.str (u16 "P1"))
      (JsVal.num 0)
      = some [(JsVal.num 1, [entryData (sampleSchedule 10 1), entryData (sampleSchedule 11 1)])] := by
    decide
  have hocc2 : occ = [(JsVal.num 1, [entryData (sampleSchedule 10 1), entryData (sampleSchedule 11 1)])] :=
    Option.some.inj (hocc.symm.trans hval)
  have hhas : JsMap.has occ (JsVal.num 1) = true := by rw [hocc2]; decide
  exact ⟨occ, hocc, hhas, hne (JsVal.num 1) hhas, habs (JsVal.num 2) (by decide)⟩

/-! ## The loaders in closed form -/

theorem ensure_pushAt_eq {V : Type} (m : JsMap (List V)) (k : JsVal) (v : V) :
    JsMap.pushAt (if JsMap.has m k then m else JsMap.set m k []) k v
      = some (appendAt m k v) := by
  induction m with
  | nil => simp [JsMap.has, JsMap.get, JsMap.set, JsMap.pushAt, appendAt]
  | cons p m ih =>
    obtain ⟨k0, vs⟩ := p
    by_cases h0 : k0 = k
    · simp [JsMap.has, JsMap.get, JsMap.pushAt, appendAt, h0]
    · have hhas : JsMap.has ((k0, vs) :: m) k = JsMap.has m k := by
        simp [JsMap.has, JsMap.get, h0]
      rw [hhas]
      by_cases hm : JsMap.has m k = true
      · simp only [hm, if_true] at ih ⊢
        simp [JsMap.pushAt, appendAt, h0, ih]
      · simp only [hm] at ih ⊢
        simp only [Bool.false_eq_true, if_false] at ih ⊢
        simp [JsMap.set, JsMap.pushAt, appendAt, h0, ih]

theorem get_appendAt {V : Type} (m : JsMap (List V)) (k : JsVal) (v : V) (k2 : JsVal) :
    JsMap.get (appendAt m k v) k2
      = if k = k2 then some ((JsMap.get m k).getD [] ++ [v]) else JsMap.get m k2 := by
  induction m with
  | nil => simp [appendAt, JsMap.get]
  | cons p m ih =>
    obtain ⟨k0, vs⟩ := p
    by_cases h0 : k0 = k
    · subst h0
      by_cases h1 : k0 = k2 <;> simp [appendAt, JsMap.get, h1]
    · by_cases h1 : k0 = k2
      · subst h1
        have h2 : ¬ k = k0 := fun h => h0 h.symm
        simp [appendAt, JsMap.get, h0, h2]
      · simp [appendAt, JsMap.get, h0, h1, ih]

theorem addRoom_eq (state : State) (room : Room) :
    addRoom state room = some (registerRoom state room) := by
  simp [addRoom, registerRoom, ensure_pushAt_eq]

theorem foldlM_eq_foldl {α β : Type} (f : β → α → Option β) (g : β → α → β)
    (h : ∀ b a, f b a = some (g b a)) (l : List α) :
    ∀ b, l.foldlM f b = some (l.foldl g b) := by
  induction l with
  | nil => intro b; rfl
  | cons a l ih => intro b; simp [List.foldlM, h, ih]

theorem foldl_registerRoom (rooms : List Room) :
    ∀ st : State, rooms.foldl registerRoom st =
      { st with
        roomsById := rooms.foldl (fun m room => JsMap.set m room.id room) st.roomsById
        roomsByFloor := rooms.foldl (fun m room => appendAt m room.floor room) st.roomsByFloor } := by
  induction rooms with
  | nil => intro st; rfl
  | cons r rooms ih => intro st; simp [List.foldl, ih, registerRoom]

theorem foldl_addClassInfo (infos : List ClassInfo) :
    ∀ st : State, infos.foldl addClassInfo st =
      { st with
        classInfoBySchedule :=
          infos.foldl (fun m info => JsMap.set m info.scheduleId info) st.classInfoBySchedule } := by
  induction infos with
  | nil => intro st; rfl
  | cons r infos ih => intro st; simp [List.foldl, ih, addClassInfo]

/-- The populate step of `loadData` never throws, and its result is the store built
from the rows alone, whatever the store held before. -/
theorem loadData_eq (data : Data) (state : State) :
    loadData data state = some (buildStore (data.rooms.map roomData)
      (data.classInfo.map classInfoData) (data.schedules.map entryData)) := by
  have hrooms := foldlM_eq_foldl (fun st room => addRoom st (roomData room))
    (fun st room => registerRoom st (roomData room))
    (fun b a => addRoom_eq b (roomData a)) data.rooms
  have h1 : ∀ st : State, data.rooms.foldl (fun st room => registerRoom st (roomData room)) st
      = (data.rooms.map roomData).foldl registerRoom st := by
    intro st; rw [List.foldl_map]
  have h2 : ∀ st : State,
      data.classInfo.foldl (fun st info => addClassInfo st (classInfoData info)) st
      = (data.classInfo.map classInfoData).foldl addClassInfo st := by
    intro st; rw [List.foldl_map]
  simp only [loadData, hrooms, h1, h2, foldl_registerRoom, foldl_addClassInfo, buildStore,
    Option.bind_eq_bind, Option.some_bind, Option.pure_def, bind, pure]
  rfl

/-! ## Membership in the derived sets and in the room index -/

theorem mem_foldl_addNew (xs : List JsVal) (x : JsVal) :
    ∀ acc : List JsVal,
      x ∈ xs.foldl (fun acc x => if x ∈ acc then acc else acc ++ [x]) acc ↔ x ∈ acc ∨ x ∈ xs := by
  induction xs with
  | nil => intro acc; simp
  | cons y xs ih =>
    intro acc
    simp only [List.foldl, ih, List.mem_cons]
    by_cases hy : y ∈ acc
    · simp only [hy, if_true]
      constructor
      · rintro (h | h)
        · exact Or.inl h
        · exact Or.inr (Or.inr h)
      · rintro (h | h | h)
        · exact Or.inl h
        · exact Or.inl (h ▸ hy)
        · exact Or.inr h
    · simp only [hy, if_false, List.mem_append, List.mem_singleton]
      tauto

theorem mem_arrayFromSet (xs : List JsVal) (x : JsVal) : x ∈ arrayFromSet xs ↔ x ∈ xs := by
  unfold arrayFromSet
  rw [mem_foldl_addNew]
  simp

theorem mem_jsSort (xs : List JsVal) (x : JsVal) : x ∈ jsSort xs ↔ x ∈ xs := by
  unfold jsSort
  rw [List.mem_append, (List.perm_insertionSort sortLe _).mem_iff, List.mem_filter,
    List.mem_filter]
  by_cases h : x = JsVal.undefined <;> simp [h]

theorem get_foldl_set_mem (rooms : List Room) (k : JsVal) (room : Room) :
    ∀ m : JsMap Room,
      JsMap.get (rooms.foldl (fun m room => JsMap.set m room.id room) m) k = some room →
        room ∈ rooms ∨ JsMap.get m k = some room := by
  induction rooms with
  | nil => intro m h; exact Or.inr h
  | cons r rooms ih =>
    intro m h
    rcases ih _ h with h1 | h1
    · exact Or.inl (List.mem_cons_of_mem _ h1)
    · rw [get_set] at h1
      by_cases hk : r.id = k
      · rw [if_pos hk] at h1
        cases h1
        exact Or.inl (List.mem_cons_self _ _)
      · rw [if_neg hk] at h1
        exact Or.inr h1

theorem eq_nil_of_get_none {V : Type} (m : JsMap V) (h : ∀ k, JsMap.get m k = none) :
    m = [] := by
  cases m with
  | nil => rfl
  | cons p m =>
    obtain ⟨k, v⟩ := p
    have := h k
    simp [JsMap.get] at this

/-! ## C3: filters outside the loaded data -/

/-- C3. For every store produced by `loadData` and every (day, period, floor), if
the day is not an element of `state.days`, or the period is not an element of
`state.periods`, or no loaded room has the requested floor, then `getOccupancy`
returns the empty mapping, without throwing. -/
theorem getOccupancy_empty_outside_loaded (data : Data) (prior state : State)
    (day period floor : JsVal) (hload : loadData data prior = some state)
    (hout : day ∉ state.days ∨ period ∉ state.periods ∨
      ∀ room ∈ data.rooms, room.RoomFloor ≠ floor) :
    getOccupancy state day period floor = some [] := by
  rw [loadData_eq] at hload
  have hstate := Option.some.inj hload
  obtain ⟨occ, hocc, hget⟩ := getOccupancy_spec state day period floor
  rw [hocc]
  congr 1
  apply eq_nil_of_get_none
  intro r
  rw [hget r, if_pos]
  rw [List.filter_eq_nil_iff]
  intro e he hpass
  unfold passes at hpass
  cases hroom : JsMap.get state.roomsById e.roomId with
  | none => simp [hroom] at hpass
  | some room =>
    simp only [hroom, Bool.and_eq_true, decide_eq_true_eq] at hpass
    obtain ⟨⟨hd, hp⟩, hf, _⟩ := hpass
    have hd2 := ((strictEq_true_iff _ _).1 hd).1
    have hp2 := ((strictEq_true_iff _ _).1 hp).1
    have hf2 := ((strictEq_true_iff _ _).1 hf).1
    rcases hout with h | h | h
    · apply h
      rw [← hstate]
      simp only [buildStore, deriveSets]
      rw [mem_jsSort, mem_arrayFromSet, ← hd2]
      have he2 : e ∈ (data.schedules.map entryData) := by
        rw [← hstate] at he; exact he
      exact List.mem_map.2 ⟨e, he2, rfl⟩
    · apply h
      rw [← hstate]
      simp only [buildStore, deriveSets]
      rw [mem_jsSort, mem_arrayFromSet, ← hp2]
      have he2 : e ∈ (data.schedules.map entryData) := by
        rw [← hstate] at he; exact he
      exact List.mem_map.2 ⟨e, he2, rfl⟩
    · have hroom2 : JsMap.get
          ((data.rooms.map roomData).foldl (fun m room => JsMap.set m room.id room) [])
          e.roomId = some room := by
        rw [← hstate] at hroom; exact hroom
      rcases get_foldl_set_mem _ _ _ _ hroom2 with hm | hm
      · obtain ⟨row, hrow, hrd⟩ := List.mem_map.1 hm
        apply h row hrow
        rw [← hf2, ← hrd]
        rfl
      · simp [JsMap.get] at hm

/-- The sample data, loaded into the empty store and asked for Day2, which no entry
has: the result is the empty mapping. -/
theorem getOccupancy_empty_outside_loaded_witness :
    loadData sampleData emptyState = some sampleState ∧
      JsVal.str (u16 "Day2") ∉ sampleState.days ∧
      getOccupancy sampleState (JsVal.str (u16 "Day2")) (JsVal.str (u16 "P1")) (JsVal.num 0)
        = some [] :=
  ⟨by decide, by decide,
    getOccupancy_empty_outside_loaded sampleData emptyState sampleState
      (JsVal.str (u16 "Day2")) (JsVal.str (u16 "P1")) (JsVal.num 0) (by decide)
      (Or.inl (by decide))⟩

/-! ## C4: dangling room ids -/

theorem occupancyStep_dangling (state : State) (day period floor : JsVal)
    (occ : JsMap (List Entry)) (e : Entry) (h : dangling state e = true) :
    occupancyStep state day period floor occ e = some occ := by
  have hnone : JsMap.get state.roomsById e.roomId = none := by
    simpa [dangling, JsMap.has] using h
  unfold occupancyStep
  split
  · rfl
  · simp [hnone]

theorem foldlM_skip_dangling (state : State) (day period floor : JsVal) (l : List Entry) :
    ∀ occ : JsMap (List Entry),
      l.foldlM (occupancyStep state day period floor) occ
        = (l.filter (fun e => !dangling state e)).foldlM
            (occupancyStep state day period floor) occ := by
  induction l with
  | nil => intro occ; rfl
  | cons e l ih =>
    intro occ
    by_cases h : dangling state e = true
    · simp [List.foldlM, List.filter, h, occupancyStep_dangling, ih]
    · have h2 : dangling state e = false := by simpa using h
      simp only [List.filter, h2, Bool.not_false, List.foldlM]
      congr 1
      funext occ2
      exact ih occ2

/-- C4. For every store and every (day, period, floor), `getOccupancy` completes
without throwing even when schedule entries refer to room ids that are not keys of
`roomsById`; such dangling entries appear in no list of the result; and the result
is equal to the one obtained from the same store with the dangling entries removed
from `state.schedules`. -/
theorem getOccupancy_drops_dangling (state : State) (day period floor : JsVal) :
    ∃ occ, getOccupancy state day period floor = some occ ∧
      (∀ r l, JsMap.get occ r = some l → ∀ e ∈ l, dangling state e = false) ∧
      getOccupancy
        { state with schedules := state.schedules.filter (fun e => !dangling state e) }
        day period floor = some occ := by
  obtain ⟨occ, hocc, hget⟩ := getOccupancy_spec state day period floor
  refine ⟨occ, hocc, ?_, ?_⟩
  · intro r l hl e he
    rw [hget r] at hl
    by_cases hne : state.schedules.filter (passes state day period floor r) = []
    · rw [if_pos hne] at hl; cases hl
    · rw [if_neg hne] at hl
      cases hl
      have hpass := (List.mem_filter.1 he).2
      unfold passes at hpass
      cases hroom : JsMap.get state.roomsById e.roomId with
      | none => simp [hroom] at hpass
      | some room => simp [dangling, JsMap.has, hroom]
  · rw [← hocc]
    unfold getOccupancy
    exact (foldlM_skip_dangling state day period floor state.schedules []).symm

/-! ## The SQL-dump loader in closed form -/

theorem parseSqlLine_eq (numberOther : JsString → JsVal) (state : State) (line : JsString) :
    parseSqlLine numberOther state line = some (applyRow state (parsedRow numberOther line)) := by
  unfold parseSqlLine parsedRow
  split
  · cases parseInsertValues numberOther line with
    | none => rfl
    | some values => exact addRoom_eq _ _
  · split
    · cases parseInsertValues numberOther line <;> rfl
    · split
      · cases parseInsertValues numberOther line <;> rfl
      · rfl

theorem foldl_applyRow (rows : List (Option ParsedRow)) :
    ∀ st : State, rows.foldl applyRow st =
      { roomsById := (roomsOf rows).foldl (fun m room => JsMap.set m room.id room) st.roomsById
        roomsByFloor :=
          (roomsOf rows).foldl (fun m room => appendAt m room.floor room) st.roomsByFloor
        classInfoBySchedule :=
          (infosOf rows).foldl (fun m info => JsMap.set m info.scheduleId info)
            st.classInfoBySchedule
        schedules := st.schedules ++ entriesOf rows
        days := st.days
        periods := st.periods } := by
  induction rows with
  | nil => intro st; simp [roomsOf, infosOf, entriesOf]
  | cons row rows ih =>
    intro st
    rw [List.foldl_cons, ih]
    rcases row with _ | r | i | e <;>
      simp [applyRow, registerRoom, addClassInfo, roomsOf, infosOf, entriesOf]

/-- The function `parseSqlText` never throws; it adds the rows read from the text
to the store it is given and recomputes the derived sets. -/
theorem parseSqlText_eq (numberOther : JsString → JsVal) (text : JsString) (state : State) :
    parseSqlText numberOther text state
      = some (deriveSets ((sqlRows numberOther text).foldl applyRow state)) := by
  have h := foldlM_eq_foldl (parseSqlLine numberOther)
    (fun st line => applyRow st (parsedRow numberOther line))
    (parseSqlLine_eq numberOther) (splitLines text []) state
  simp only [parseSqlText, h, sqlRows, List.foldl_map, Option.bind_eq_bind, Option.some_bind,
    Option.pure_def, bind, pure]

theorem parseSqlText_emptyState (numberOther : JsString → JsVal) (text : JsString) :
    parseSqlText numberOther text emptyState
      = some (buildStore (roomsOf (sqlRows numberOther text))
          (infosOf (sqlRows numberOther text)) (entriesOf (sqlRows numberOther text))) := by
  rw [parseSqlText_eq, foldl_applyRow]
  simp [emptyState, buildStore, deriveSets]

/-! ## The code-unit order -/

theorem strLt_irrefl (a : JsString) : strLt a a = false := by
  induction a with
  | nil => rfl
  | cons x a ih => simp [strLt, ih]

theorem strLt_trans : ∀ (a b c : JsString),
    strLt a b = true → strLt b c = true → strLt a c = true := by
  intro a
  induction a with
  | nil =>
    intro b c hab hbc
    cases b with
    | nil => simp [strLt] at hab
    | cons y b =>
      cases c with
      | nil => simp [strLt] at hbc
      | cons z c => rfl
  | cons x a ih =>
    intro b c hab hbc
    cases b with
    | nil => simp [strLt] at hab
    | cons y b =>
      cases c with
      | nil => simp [strLt] at hbc
      | cons z c =>
        simp only [strLt, Bool.or_eq_true, Bool.and_eq_true, decide_eq_true_eq] at hab hbc ⊢
        rcases hab with hab | ⟨hxy, hab⟩
        · rcases hbc with hbc | ⟨hyz, _⟩
          · exact Or.inl (by omega)
          · exact Or.inl (by omega)
        · rcases hbc with hbc | ⟨hyz, hbc⟩
          · exact Or.inl (by omega)
          · exact Or.inr ⟨by omega, ih b c hab hbc⟩

theorem strLt_trichotomy : ∀ (a b : JsString),
    strLt a b = false → strLt b a = false → a = b := by
  intro a
  induction a with
  | nil =>
    intro b hab _
    cases b with
    | nil => rfl
    | cons y b => simp [strLt] at hab
  | cons x a ih =>
    intro b hab hba
    cases b with
    | nil => simp [strLt] at hba
    | cons y b =>
      simp only [strLt, Bool.or_eq_false_iff, Bool.and_eq_false_iff, decide_eq_false_iff_not]
        at hab hba
      have hxy : x = y := by omega
      subst hxy
      have h1 : strLt a b = false := by
        rcases hab.2 with h | h
        · exact absurd rfl h
        · exact h
      have h2 : strLt b a = false := by
        rcases hba.2 with h | h
        · exact absurd rfl h
        · exact h
      rw [ih b h1 h2]

theorem strLt_asymm (a b : JsString) (h : strLt a b = true) : strLt b a = false := by
  cases hba : strLt b a with
  | false => rfl
  | true =>
    have := strLt_trans a b a h hba
    rw [strLt_irrefl] at this
    cases this

instance : IsTotal JsVal sortLe :=
  ⟨fun a b => by
    unfold sortLe
    cases h : strLt (toStr b) (toStr a) with
    | false => exact Or.inl rfl
    | true => exact Or.inr (strLt_asymm _ _ h)⟩

instance : IsTrans JsVal sortLe :=
  ⟨fun a b c hab hbc => by
    unfold sortLe at *
    cases hca : strLt (toStr c) (toStr a) with
    | false => rfl
    | true =>
      cases hAB : strLt (toStr a) (toStr b) with
      | true =>
        have := strLt_trans _ _ _ hca hAB
        rw [hbc] at this
        cases this
      | false =>
        have heq := strLt_trichotomy _ _ hAB hab
        rw [heq, hbc] at hca
        cases hca⟩

/-! ## The derived sets -/

theorem nodup_foldl_addNew (xs : List JsVal) :
    ∀ acc : List JsVal, acc.Nodup →
      (xs.foldl (fun acc x => if x ∈ acc then acc else acc ++ [x]) acc).Nodup := by
  induction xs with
  | nil => intro acc h; exact h
  | cons y xs ih =>
    intro acc h
    simp only [List.foldl]
    by_cases hy : y ∈ acc
    · simp only [hy, if_true]; exact ih acc h
    · simp only [hy, if_false]
      apply ih
      rw [List.nodup_append]
      refine ⟨h, List.nodup_singleton y, ?_⟩
      intro a ha hb
      rw [List.mem_singleton] at hb
      exact hy (hb ▸ ha)

theorem nodup_arrayFromSet (xs : List JsVal) : (arrayFromSet xs).Nodup :=
  nodup_foldl_addNew xs [] List.nodup_nil

theorem jsSort_eq_of_defined (xs : List JsVal) (h : ∀ x ∈ xs, x ≠ JsVal.undefined) :
    jsSort xs = xs.insertionSort sortLe := by
  unfold jsSort
  have h1 : xs.filter (fun v => decide (v ≠ JsVal.undefined)) = xs := by
    rw [List.filter_eq_self]
    intro x hx
    simpa using h x hx
  have h2 : xs.filter (fun v => decide (v = JsVal.undefined)) = [] := by
    rw [List.filter_eq_nil_iff]
    intro x hx
    simpa using h x hx
  rw [h1, h2, List.append_nil]

theorem isStr_iff (v : JsVal) : isStr v = true ↔ ∃ s, v = JsVal.str s := by
  cases v <;> simp [isStr]

theorem strictlyAscending_jsSort_arrayFromSet (xs : List JsVal)
    (h : ∀ x ∈ xs, isStr x = true) :
    strictlyAscending (jsSort (arrayFromSet xs)) ∧ (jsSort (arrayFromSet xs)).Nodup := by
  have hstr : ∀ x ∈ arrayFromSet xs, isStr x = true :=
    fun x hx => h x ((mem_arrayFromSet xs x).1 hx)
  have hdef : ∀ x ∈ arrayFromSet xs, x ≠ JsVal.undefined := by
    intro x hx hu
    have := hstr x hx
    rw [hu] at this
    cases this
  rw [jsSort_eq_of_defined _ hdef]
  have hnd : ((arrayFromSet xs).insertionSort sortLe).Nodup :=
    (List.perm_insertionSort sortLe _).nodup_iff.2 (nodup_arrayFromSet xs)
  refine ⟨?_, hnd⟩
  have hsorted : ((arrayFromSet xs).insertionSort sortLe).Pairwise sortLe :=
    List.sorted_insertionSort sortLe _
  have hboth := hsorted.and hnd
  refine hboth.imp_of_mem ?_
  intro a b ha hb hab
  have ha2 := hstr a ((List.perm_insertionSort sortLe _).mem_iff.1 ha)
  have hb2 := hstr b ((List.perm_insertionSort sortLe _).mem_iff.1 hb)
  obtain ⟨s, rfl⟩ := (isStr_iff a).1 ha2
  obtain ⟨t, rfl⟩ := (isStr_iff b).1 hb2
  refine ⟨s, t, rfl, rfl, ?_⟩
  cases hst : strLt s t with
  | true => rfl
  | false =>
    have hts : strLt t s = false := hab.1
    exact absurd (congrArg JsVal.str (strLt_trichotomy s t hst hts)) hab.2

theorem foldl_addNew_of_mem (ys : List JsVal) :
    ∀ acc : List JsVal, (∀ y ∈ ys, y ∈ acc) →
      ys.foldl (fun acc x => if x ∈ acc then acc else acc ++ [x]) acc = acc := by
  induction ys with
  | nil => intro acc _; rfl
  | cons y ys ih =>
    intro acc h
    have hy : y ∈ acc := h y (List.mem_cons_self _ _)
    simp only [List.foldl, hy, if_true]
    exact ih acc (fun z hz => h z (List.mem_cons_of_mem _ hz))

/-- Values that already occur do not change the array of distinct values. -/
theorem arrayFromSet_append_of_mem (xs ys : List JsVal) (h : ∀ y ∈ ys, y ∈ xs) :
    arrayFromSet (xs ++ ys) = arrayFromSet xs := by
  unfold arrayFromSet
  rw [List.foldl_append]
  apply foldl_addNew_of_mem
  intro y hy
  exact (mem_arrayFromSet xs y).2 (h y hy)

/-! ## C5: the derived sets after a load and after a reload -/

theorem derived_after_load (entries : List Entry) (f : Entry → JsVal)
    (h : ∀ e ∈ entries, isStr (f e) = true) :
    strictlyAscending (jsSort (arrayFromSet (entries.map f))) ∧
      (jsSort (arrayFromSet (entries.map f))).Nodup ∧
      ∀ v, v ∈ jsSort (arrayFromSet (entries.map f)) ↔ ∃ e ∈ entries, f e = v := by
  have hstr : ∀ x ∈ entries.map f, isStr x = true := by
    intro x hx
    obtain ⟨e, he, rfl⟩ := List.mem_map.1 hx
    exact h e he
  obtain ⟨h1, h2⟩ := strictlyAscending_jsSort_arrayFromSet _ hstr
  refine ⟨h1, h2, ?_⟩
  intro v
  rw [mem_jsSort, mem_arrayFromSet, List.mem_map]

theorem derived_after_reload (prior entries : List Entry) (f : Entry → JsVal) :
    jsSort (arrayFromSet (((prior ++ entries) ++ entries).map f))
      = jsSort (arrayFromSet ((prior ++ entries).map f)) := by
  rw [List.map_append, arrayFromSet_append_of_mem]
  intro y hy
  rw [List.map_append]
  exact List.mem_append_right _ hy

/-- C5. For every data set with string day and period values, after a load
`state.days` is the strictly ascending (code-unit lexicographic, duplicate-free)
sequence whose elements are exactly the day values of the schedule entries,
`state.periods` is the same for the period values, and a second load of the same
data set leaves both unchanged; for the JSON loader `loadData` and for the SQL-dump
loader `parseSqlText`. -/
theorem derived_sets_ascending_distinct_stable (numberOther : JsString → JsVal)
    (data : Data) (prior : State) (text : JsString)
    (hjson : ∀ row ∈ data.schedules, isStr row.Day = true ∧ isStr row.Period = true)
    (hsql : ∀ e ∈ entriesOf (sqlRows numberOther text),
      isStr e.day = true ∧ isStr e.period = true) :
    (∃ state, loadData data prior = some state ∧
      strictlyAscending state.days ∧ state.days.Nodup ∧
      (∀ v, v ∈ state.days ↔ ∃ row ∈ data.schedules, row.Day = v) ∧
      strictlyAscending state.periods ∧ state.periods.Nodup ∧
      (∀ v, v ∈ state.periods ↔ ∃ row ∈ data.schedules, row.Period = v) ∧
      ∃ state2, loadData data state = some state2 ∧
        state2.days = state.days ∧ state2.periods = state.periods) ∧
    (∃ state, parseSqlText numberOther text emptyState = some state ∧
      state.schedules = entriesOf (sqlRows numberOther text) ∧
      strictlyAscending state.days ∧ state.days.Nodup ∧
      (∀ v, v ∈ state.days ↔ ∃ e ∈ state.schedules, e.day = v) ∧
      strictlyAscending state.periods ∧ state.periods.Nodup ∧
      (∀ v, v ∈ state.periods ↔ ∃ e ∈ state.schedules, e.period = v) ∧
      ∃ state2, parseSqlText numberOther text state = some state2 ∧
        state2.days = state.days ∧ state2.periods = state.periods) := by
  constructor
  · refine ⟨_, loadData_eq data prior, ?_⟩
    have hd := derived_after_load (data.schedules.map entryData) (fun e => e.day) (by
      intro e he
      obtain ⟨row, hrow, rfl⟩ := List.mem_map.1 he
      exact (hjson row hrow).1)
    have hp := derived_after_load (data.schedules.map entryData) (fun e => e.period) (by
      intro e he
      obtain ⟨row, hrow, rfl⟩ := List.mem_map.1 he
      exact (hjson row hrow).2)
    refine ⟨hd.1, hd.2.1, ?_, hp.1, hp.2.1, ?_, _, loadData_eq data _, rfl, rfl⟩
    · intro v
      rw [show (buildStore (data.rooms.map roomData) (data.classInfo.map classInfoData)
        (data.schedules.map entryData)).days
          = jsSort (arrayFromSet ((data.schedules.map entryData).map (fun e => e.day))) from rfl,
        hd.2.2 v]
      constructor
      · rintro ⟨e, he, hv⟩
        obtain ⟨row, hrow, rfl⟩ := List.mem_map.1 he
        exact ⟨row, hrow, hv⟩
      · rintro ⟨row, hrow, hv⟩
        exact ⟨entryData row, List.mem_map.2 ⟨row, hrow, rfl⟩, hv⟩
    · intro v
      rw [show (buildStore (data.rooms.map roomData) (data.classInfo.map classInfoData)
        (data.schedules.map entryData)).periods
          = jsSort (arrayFromSet ((data.schedules.map entryData).map (fun e => e.period))) from rfl,
        hp.2.2 v]
      constructor
      · rintro ⟨e, he, hv⟩
        obtain ⟨row, hrow, rfl⟩ := List.mem_map.1 he
        exact ⟨row, hrow, hv⟩
      · rintro ⟨row, hrow, hv⟩
        exact ⟨entryData row, List.mem_map.2 ⟨row, hrow, rfl⟩, hv⟩
  · refine ⟨_, parseSqlText_emptyState numberOther text, rfl, ?_⟩
    have hd := derived_after_load (entriesOf (sqlRows numberOther text)) (fun e => e.day)
      (fun e he => (hsql e he).1)
    have hp := derived_after_load (entriesOf (sqlRows numberOther text)) (fun e => e.period)
      (fun e he => (hsql e he).2)
    refine ⟨hd.1, hd.2.1, hd.2.2, hp.1, hp.2.1, hp.2.2, _, parseSqlText_eq numberOther text _, ?_, ?_⟩
    · rw [foldl_applyRow]
      have h := derived_after_reload [] (entriesOf (sqlRows numberOther text)) (fun e => e.day)
      simpa [deriveSets, buildStore] using h
    · rw [foldl_applyRow]
      have h := derived_after_reload [] (entriesOf (sqlRows numberOther text)) (fun e => e.period)
      simpa [deriveSets, buildStore] using h

/-- The sample week, loaded by each loader: the days are Day1, Day2 and the periods
P1, P3, and they stay so after a second load. -/
theorem derived_sets_ascending_distinct_stable_witness :
    (∀ row ∈ sampleWeek.schedules, isStr row.Day = true ∧ isStr row.Period = true) ∧
    (∃ state, loadData sampleWeek emptyState = some state ∧
      state.days = [JsVal.str (u16 "Day1"), JsVal.str (u16 "Day2")] ∧
      strictlyAscending state.days) ∧
    (∃ state, parseSqlText numberNaN sampleWeekDump emptyState = some state ∧
      state.periods = [JsVal.str (u16 "P1"), JsVal.str (u16 "P3")] ∧
      strictlyAscending state.periods ∧
      ∃ state2, parseSqlText numberNaN sampleWeekDump state = some state2 ∧
        state2.periods = state.periods) := by
  have hjson : ∀ row ∈ sampleWeek.schedules, isStr row.Day = true ∧ isStr row.Period = true := by
    decide
  have hsql : ∀ e ∈ entriesOf (sqlRows numberNaN sampleWeekDump),
      isStr e.day = true ∧ isStr e.period = true := by
    decide
  obtain ⟨⟨st, hst, hasc, _⟩, ⟨st2, hst2, _, _, _, _, hasc2, _, _, hre⟩⟩ :=
    derived_sets_ascending_distinct_stable numberNaN sampleWeek emptyState sampleWeekDump
      hjson hsql
  refine ⟨hjson, ⟨st, hst, ?_, hasc⟩, ⟨st2, hst2, ?_, hasc2, ?_⟩⟩
  · have hval : loadData sampleWeek emptyState = some (buildStore
        (sampleWeek.rooms.map roomData) (sampleWeek.classInfo.map classInfoData)
        (sampleWeek.schedules.map entryData)) := loadData_eq _ _
    have heq := Option.some.inj (hst.symm.trans hval)
    rw [heq]
    decide
  · have hval := parseSqlText_emptyState numberNaN sampleWeekDump
    have heq := Option.some.inj (hst2.symm.trans hval)
    rw [heq]
    decide
  · obtain ⟨st3, hst3, _, hp3⟩ := hre
    exact ⟨st3, hst3, hp3⟩

/-- The sample store at (Day1, P1, floor 0): the entry for room 99 is dangling, and
the result is the one of the store without it. -/
theorem getOccupancy_drops_dangling_witness :
    dangling sampleState (entryData (sampleSchedule 12 99)) = true ∧
    entryData (sampleSchedule 12 99) ∈ sampleState.schedules ∧
    ∃ occ, getOccupancy sampleState (JsVal.str (u16 "Day1")) (JsVal.str (u16 "P1"))
        (JsVal.num 0) = some occ ∧
      getOccupancy
        { sampleState with
          schedules := sampleState.schedules.filter (fun e => !dangling sampleState e) }
        (JsVal.str (u16 "Day1")) (JsVal.str (u16 "P1")) (JsVal.num 0) = some occ := by
  obtain ⟨occ, hocc, _, hsame⟩ := getOccupancy_drops_dangling sampleState
    (JsVal.str (u16 "Day1")) (JsVal.str (u16 "P1")) (JsVal.num 0)
  exact ⟨by decide, by decide, occ, hocc, hsame⟩

/-! ## C6: the status text -/

/-- C6 as stated fails: with class info Smith, Math and the empty string as grade,
the grade is present and is not 0, yet the status text has no grade suffix. -/
theorem statusText_empty_grade_no_suffix :
    present (JsVal.str []) = true ∧ JsVal.str [] ≠ JsVal.num 0 ∧
    statusText (gradeState (JsVal.str [])) (some [entryData (sampleSchedule 10 1)])
      = u16 "Math - Smith" ∧
    join (u16 "; ") ([entryData (sampleSchedule 10 1)].map (fun e =>
        statedLabel (JsMap.get (gradeState (JsVal.str [])).classInfoBySchedule e.scheduleId)))
      = u16 "Math - Smith (Grade )" ∧
    statusText (gradeState (JsVal.str [])) (some [entryData (sampleSchedule 10 1)])
      ≠ join (u16 "; ") ([entryData (sampleSchedule 10 1)].map (fun e =>
        statedLabel (JsMap.get (gradeState (JsVal.str [])).classInfoBySchedule e.scheduleId))) := by
  decide

theorem entryLabel_eq_truthyLabel (state : State) (e : Entry) :
    entryLabel state e = truthyLabel (JsMap.get state.classInfoBySchedule e.scheduleId) := by
  simp only [entryLabel, truthyLabel, orElse]
  cases h1 : truthy (classField (JsMap.get state.classInfoBySchedule e.scheduleId)
      (fun i => i.teacher)) <;>
    cases h2 : truthy (classField (JsMap.get state.classInfoBySchedule e.scheduleId)
      (fun i => i.className)) <;>
    cases h3 : truthy (classField (JsMap.get state.classInfoBySchedule e.scheduleId)
      (fun i => i.grade)) <;>
    simp [toStr, u16]

theorem truthy_eq_present (v : JsVal) (h : plainField v = true) :
    truthy v = (present v && decide (v ≠ JsVal.num 0)) := by
  cases v with
  | undefined => rfl
  | null => rfl
  | nan => simp [plainField] at h
  | num n => simp [truthy, present]
  | str s => simp [plainField] at h; simp [truthy, present, h]

/-- C6, amended. For every occupied room with entries e1..en (n >= 1) the status
text of the table variant is the labels of the entries joined with `; `, where a
label is className, ` - `, teacher, and the suffix ` (Grade g)` exactly when the
grade is truthy, a falsy teacher reading `Unknown` and a falsy class name `Class`;
falsy means `undefined`, `null`, 0, `NaN` or the empty string.  When no field of
the class info is `NaN` or the empty string and neither the teacher nor the class
name is 0, this is the label as the specification words it.  For Smith, Math and
grade 9 the label is `Math - Smith (Grade 9)`; for grade 0 or no grade it is
`Math - Smith`. -/
theorem statusText_labels (state : State) (entries : List Entry) (hne : entries ≠ []) :
    statusText state (some entries)
        = join (u16 "; ") (entries.map (fun e =>
            truthyLabel (JsMap.get state.classInfoBySchedule e.scheduleId))) ∧
      (∀ info : Option ClassInfo,
        plainField (classField info (fun i => i.teacher)) = true →
        plainField (classField info (fun i => i.className)) = true →
        plainField (classField info (fun i => i.grade)) = true →
        classField info (fun i => i.teacher) ≠ JsVal.num 0 →
        classField info (fun i => i.className) ≠ JsVal.num 0 →
        truthyLabel info = statedLabel info) ∧
      truthyLabel (some (smithMath (JsVal.num 9))) = u16 "Math - Smith (Grade 9)" ∧
      truthyLabel (some (smithMath (JsVal.num 0))) = u16 "Math - Smith" ∧
      truthyLabel (some (smithMath JsVal.undefined)) = u16 "Math - Smith" ∧
      truthyLabel (some (smithMath JsVal.null)) = u16 "Math - Smith" ∧
      truthyLabel none = u16 "Class - Unknown" := by
  refine ⟨?_, ?_, by decide, by decide, by decide, by decide, by decide⟩
  · have hlen : entries.length ≠ 0 := fun h => hne (List.length_eq_zero.1 h)
    simp only [statusText, hlen, ne_eq, not_false_eq_true, if_true]
    congr 1
    apply List.map_congr_left
    intro e _
    exact entryLabel_eq_truthyLabel state e
  · intro info ht hc hg ht0 hc0
    unfold truthyLabel statedLabel
    rw [truthy_eq_present _ ht, truthy_eq_present _ hc, truthy_eq_present _ hg]
    simp [ht0, hc0]

/-- The scenario of the specification: room 1 of the sample store, with its two
entries, reads `Math - Smith (Grade 9); Class - Unknown`. -/
theorem statusText_labels_witness :
    [entryData (sampleSchedule 10 1), entryData (sampleSchedule 11 1)] ≠ [] ∧
    statusText sampleState (some [entryData (sampleSchedule 10 1), entryData (sampleSchedule 11 1)])
      = u16 "Math - Smith (Grade 9); Class - Unknown" := by
  refine ⟨by decide, ?_⟩
  rw [(statusText_labels sampleState
    [entryData (sampleSchedule 10 1), entryData (sampleSchedule 11 1)] (by decide)).1]
  decide

/-! ## Decimal numerals -/

theorem digitsValue_append_singleton (ds : JsString) (d : Nat) :
    digitsValue (ds ++ [d]) = digitsValue ds * 10 + (d - 48) := by
  simp [digitsValue, List.foldl_append]

theorem digitsFuel_spec : ∀ (fuel n : Nat) (acc : JsString), n < fuel →
    ∃ ds : JsString, digitsFuel fuel n acc = ds ++ acc ∧ ds ≠ [] ∧
      (∀ c ∈ ds, isDigitUnit c) ∧ digitsValue ds = n := by
  intro fuel
  induction fuel with
  | zero => intro n acc h; omega
  | succ fuel ih =>
    intro n acc h
    by_cases h0 : n / 10 = 0
    · refine ⟨[48 + n % 10], by simp [digitsFuel, h0], by simp, ?_, ?_⟩
      · intro c hc
        rw [List.mem_singleton] at hc
        subst hc
        unfold isDigitUnit
        omega
      · simp only [digitsValue, List.foldl]
        omega
    · have hlt : n / 10 < fuel := by omega
      obtain ⟨ds, hds, _, hdig, hval⟩ := ih (n / 10) ((48 + n % 10) :: acc) hlt
      refine ⟨ds ++ [48 + n % 10], by simp [digitsFuel, h0, hds], by simp, ?_, ?_⟩
      · intro c hc
        rw [List.mem_append, List.mem_singleton] at hc
        rcases hc with hc | hc
        · exact hdig c hc
        · subst hc
          unfold isDigitUnit
          omega
      · rw [digitsValue_append_singleton, hval]
        omega

theorem natToString_spec (n : Nat) :
    natToString n ≠ [] ∧ (∀ c ∈ natToString n, isDigitUnit c) ∧
      digitsValue (natToString n) = n := by
  obtain ⟨ds, hds, hne, hdig, hval⟩ := digitsFuel_spec (n + 1) n [] (by omega)
  have : natToString n = ds := by simpa [natToString] using hds
  rw [this]
  exact ⟨hne, hdig, hval⟩

theorem isDigits_natToString (n : Nat) : isDigits (natToString n) = true := by
  obtain ⟨hne, hdig, _⟩ := natToString_spec n
  unfold isDigits
  simp only [Bool.and_eq_true, decide_eq_true_eq, List.all_eq_true]
  exact ⟨hne, fun c hc => ⟨(hdig c hc).1, (hdig c hc).2⟩⟩

/-- The first and the last code unit of a list. -/
theorem exists_head_of_ne_nil (l : JsString) (h : l ≠ []) : ∃ c rest, l = c :: rest := by
  cases l with
  | nil => exact absurd rfl h
  | cons c rest => exact ⟨c, rest, rfl⟩

/-! ## The literals of an insert statement -/

theorem dropWhile_eq_self_of_head (p : Nat → Bool) (l : JsString)
    (h : ∀ d, l.head? = some d → p d = false) : l.dropWhile p = l := by
  cases l with
  | nil => rfl
  | cons c rest =>
    have := h c rfl
    simp [List.dropWhile, this]

theorem trim_eq_self (l : JsString)
    (hhead : ∀ d, l.head? = some d → isWhiteSpace d = false)
    (hlast : ∀ d, l.getLast? = some d → isWhiteSpace d = false) : trim l = l := by
  unfold trim
  rw [dropWhile_eq_self_of_head _ l hhead, dropWhile_eq_self_of_head _ l.reverse, List.reverse_reverse]
  intro d hd
  rw [List.head?_reverse] at hd
  exact hlast d hd

theorem trim_space_cons (l : JsString) : trim (32 :: l) = trim l := by
  have : isWhiteSpace 32 = true := by decide
  simp [trim, List.dropWhile, this]

theorem isWhiteSpace_digit (c : Nat) (h : isDigitUnit c) : isWhiteSpace c = false := by
  unfold isDigitUnit at h
  unfold isWhiteSpace
  simp only [Bool.or_eq_false_iff, Bool.and_eq_false_iff, decide_eq_false_iff_not]
  omega

theorem isLineTerminator_digit (c : Nat) (h : isDigitUnit c) : isLineTerminator c = false := by
  unfold isDigitUnit at h
  unfold isLineTerminator
  simp only [Bool.or_eq_false_iff, decide_eq_false_iff_not]
  omega

/-- The code units of the numeral of an integer: digits and the minus sign. -/
theorem intToString_units (n : Int) :
    intToString n ≠ [] ∧ ∀ c ∈ intToString n, isDigitUnit c ∨ c = 45 := by
  cases n with
  | ofNat k =>
    obtain ⟨hne, hdig, _⟩ := natToString_spec k
    exact ⟨hne, fun c hc => Or.inl (hdig c hc)⟩
  | negSucc k =>
    obtain ⟨_, hdig, _⟩ := natToString_spec (k + 1)
    refine ⟨by simp [intToString], ?_⟩
    intro c hc
    simp only [intToString, List.mem_cons] at hc
    rcases hc with hc | hc
    · exact Or.inr hc
    · exact Or.inl (hdig c hc)

theorem u16_NULL : u16 "NULL" = [78, 85, 76, 76] := by decide

theorem sqlLiteral_ne_nil (v : JsVal) : sqlLiteral v ≠ [] := by
  cases v with
  | num n => exact (intToString_units n).1
  | str s => simp [sqlLiteral]
  | undefined => simp [sqlLiteral, u16_NULL]
  | null => simp [sqlLiteral, u16_NULL]
  | nan => simp [sqlLiteral, u16_NULL]

theorem sqlLiteral_head (v : JsVal) (d : Nat) (h : (sqlLiteral v).head? = some d) :
    isWhiteSpace d = false := by
  cases v with
  | num n =>
    have hm : d ∈ intToString n := List.mem_of_mem_head? h
    rcases (intToString_units n).2 d hm with hd | hd
    · exact isWhiteSpace_digit d hd
    · subst hd; decide
  | str s =>
    simp only [sqlLiteral, List.cons_append, List.head?_cons, Option.some.injEq] at h
    subst h; decide
  | undefined => simp only [sqlLiteral, u16_NULL, List.head?_cons, Option.some.injEq] at h; subst h; decide
  | null => simp only [sqlLiteral, u16_NULL, List.head?_cons, Option.some.injEq] at h; subst h; decide
  | nan => simp only [sqlLiteral, u16_NULL, List.head?_cons, Option.some.injEq] at h; subst h; decide

theorem sqlLiteral_last (v : JsVal) (d : Nat) (h : (sqlLiteral v).getLast? = some d) :
    isWhiteSpace d = false := by
  cases v with
  | num n =>
    have hm : d ∈ intToString n := List.mem_of_getLast?_eq_some h
    rcases (intToString_units n).2 d hm with hd | hd
    · exact isWhiteSpace_digit d hd
    · subst hd; decide
  | str s =>
    have : (sqlLiteral (JsVal.str s)).getLast? = some 39 := by
      have h2 : sqlLiteral (JsVal.str s) = (39 :: doubleQuotes s) ++ [39] := rfl
      rw [h2, List.getLast?_concat]
    rw [this] at h
    cases h; decide
  | undefined => simp [sqlLiteral, u16_NULL] at h; subst h; decide
  | null => simp [sqlLiteral, u16_NULL] at h; subst h; decide
  | nan => simp [sqlLiteral, u16_NULL] at h; subst h; decide

theorem trim_sqlLiteral (v : JsVal) : trim (sqlLiteral v) = sqlLiteral v :=
  trim_eq_self _ (sqlLiteral_head v) (sqlLiteral_last v)

theorem trim_space_sqlLiteral (v : JsVal) : trim (32 :: sqlLiteral v) = sqlLiteral v := by
  rw [trim_space_cons, trim_sqlLiteral]

/-! ## The scan of `parseInsertValues` -/

theorem scan_plain (l : JsString) :
    ∀ st : ScanState, (∀ c ∈ l, c ≠ 39 ∧ c ≠ 44) →
      l.foldl scanStep st = { st with current := st.current ++ l } := by
  induction l with
  | nil => intro st _; simp
  | cons c l ih =>
    intro st h
    have hc := h c (List.mem_cons_self _ _)
    rw [List.foldl_cons, ih _ (fun d hd => h d (List.mem_cons_of_mem _ hd))]
    simp [scanStep, hc.1, hc.2]

theorem scan_doubled (s : JsString) :
    ∀ st : ScanState, st.inString = true →
      (doubleQuotes s).foldl scanStep st = { st with current := st.current ++ doubleQuotes s } := by
  induction s with
  | nil => intro st _; simp [doubleQuotes]
  | cons c s ih =>
    intro st h
    by_cases hc : c = 39
    · subst hc
      simp only [doubleQuotes, if_true, List.foldl_cons]
      rw [ih _ (by simp [scanStep, h])]
      simp [scanStep, h]
    · simp only [doubleQuotes, hc, if_false, List.foldl_cons]
      rw [ih _ (by simp [scanStep, hc, h])]
      simp [scanStep, hc, h]

theorem scan_sqlLiteral (v : JsVal) (st : ScanState) (h : st.inString = false) :
    (sqlLiteral v).foldl scanStep st = { st with current := st.current ++ sqlLiteral v } := by
  have hnull : (u16 "NULL").foldl scanStep st = { st with current := st.current ++ u16 "NULL" } :=
    scan_plain _ st (by rw [u16_NULL]; decide)
  cases v with
  | num n =>
    apply scan_plain
    intro c hc
    rcases (intToString_units n).2 c hc with hd | hd
    · unfold isDigitUnit at hd; omega
    · omega
  | str s =>
    simp only [sqlLiteral, List.cons_append, List.foldl_cons, List.foldl_append, List.foldl_nil]
    rw [scan_doubled s _ (by simp [scanStep, h])]
    simp [scanStep, h]
  | undefined => exact hnull
  | null => exact hnull
  | nan => exact hnull

theorem u16_sep : u16 ", " = [44, 32] := by decide

/-- The scan of a comma-separated list of literals, started outside a string: each
literal becomes one value. -/
theorem scan_join (vs : List JsVal) :
    ∀ (v : JsVal) (st : ScanState), st.inString = false →
      ((join (u16 ", ") ((v :: vs).map sqlLiteral)).foldl scanStep st).values
          ++ [trim ((join (u16 ", ") ((v :: vs).map sqlLiteral)).foldl scanStep st).current]
        = st.values ++ trim (st.current ++ sqlLiteral v) ::
            vs.map (fun w => trim (32 :: sqlLiteral w)) := by
  induction vs with
  | nil =>
    intro v st h
    simp [join, scan_sqlLiteral v st h]
  | cons w vs ih =>
    intro v st h
    have hjoin : join (u16 ", ") ((v :: w :: vs).map sqlLiteral)
        = sqlLiteral v ++ ([44, 32] ++ join (u16 ", ") ((w :: vs).map sqlLiteral)) := by
      simp [join, u16_sep]
    rw [hjoin, List.foldl_append, scan_sqlLiteral v st h, List.foldl_append]
    have hsep : [44, 32].foldl scanStep { st with current := st.current ++ sqlLiteral v }
        = { values := st.values ++ [trim (st.current ++ sqlLiteral v)], current := [32],
            inString := false } := by
      simp [scanStep, h]
    rw [hsep, ih w _ rfl]
    simp

theorem replaceQuotePairs_doubleQuotes (s : JsString) :
    replaceQuotePairs (doubleQuotes s) = s := by
  induction s with
  | nil => rfl
  | cons c s ih =>
    by_cases hc : c = 39
    · subst hc
      simp [doubleQuotes, replaceQuotePairs, ih]
    · simp only [doubleQuotes, hc, if_false]
      cases hd : doubleQuotes s with
      | nil =>
        rw [hd] at ih
        rw [← ih]
        rfl
      | cons d rest =>
        rw [hd] at ih
        simp [replaceQuotePairs, hc, ih]

/-! ## Decoding a literal -/

theorem decodeValue_sqlLiteral (numberOther : JsString → JsVal) (v : JsVal)
    (hv : sqlValue v = true) :
    decodeValue numberOther (sqlLiteral v) = jsonValue numberOther v := by
  cases v with
  | undefined => simp [sqlValue] at hv
  | nan => simp [sqlValue] at hv
  | null => simp [decodeValue, sqlLiteral, jsonValue]
  | str s =>
    have h1 : sqlLiteral (JsVal.str s) ≠ u16 "NULL" := by
      simp [sqlLiteral, u16_NULL]
    have h2 : (sqlLiteral (JsVal.str s)).head? = some 39 := rfl
    have h3 : (sqlLiteral (JsVal.str s)).getLast? = some 39 := by
      have h : sqlLiteral (JsVal.str s) = (39 :: doubleQuotes s) ++ [39] := rfl
      rw [h, List.getLast?_concat]
    have h4 : ((sqlLiteral (JsVal.str s)).drop 1).dropLast = doubleQuotes s := by
      simp [sqlLiteral]
    unfold decodeValue
    rw [if_neg h1, if_pos ⟨h2, h3⟩, h4, replaceQuotePairs_doubleQuotes]
    rfl
  | num n =>
    have hunits := (intToString_units n).2
    have hne := (intToString_units n).1
    obtain ⟨c, ds, hcd⟩ := exists_head_of_ne_nil _ hne
    have hc : isDigitUnit c ∨ c = 45 := hunits c (by rw [hcd]; exact List.mem_cons_self _ _)
    have h1 : sqlLiteral (JsVal.num n) ≠ u16 "NULL" := by
      show intToString n ≠ u16 "NULL"
      rw [hcd, u16_NULL]
      intro h
      have : c = 78 := by injection h
      unfold isDigitUnit at hc
      omega
    have h2 : ¬ ((sqlLiteral (JsVal.num n)).head? = some 39 ∧
        (sqlLiteral (JsVal.num n)).getLast? = some 39) := by
      show ¬ ((intToString n).head? = some 39 ∧ _)
      rw [hcd]
      simp only [List.head?_cons, Option.some.injEq]
      intro h
      unfold isDigitUnit at hc
      omega
    unfold decodeValue
    rw [if_neg h1, if_neg h2]
    rfl

/-! ## Integers that a double holds exactly -/

theorem excessBits_of_lt (fuel n : Nat) (h : n < 2 ^ 53) : excessBits fuel n = 0 := by
  cases fuel with
  | zero => rfl
  | succ fuel =>
    have h2 : n < 9007199254740992 := by simpa using h
    simp [excessBits, h2]

theorem roundNat_of_lt (n : Nat) (h : n < 2 ^ 53) : roundNat n = n := by
  unfold roundNat
  rw [excessBits_of_lt n n h]
  simp [Nat.mod_one]

theorem isDoubleInt_of_le (n : Int) (h : n.natAbs ≤ 2 ^ 53) : isDoubleInt n = true := by
  have hlim : (2 : Nat) ^ 53 < doubleLimit := by decide
  unfold isDoubleInt
  rw [Bool.and_eq_true, decide_eq_true_eq, decide_eq_true_eq]
  rcases Nat.lt_or_ge n.natAbs (2 ^ 53) with hlt | hge
  · exact ⟨roundNat_of_lt _ hlt, by omega⟩
  · have heq : n.natAbs = 2 ^ 53 := by omega
    rw [heq]
    exact ⟨by decide, hlim⟩

/-- The numeral of an integer that a double holds exactly converts to that integer. -/
theorem jsNumber_intToString (numberOther : JsString → JsVal) (n : Int)
    (h : isDoubleInt n = true) : jsNumber numberOther (intToString n) = JsVal.num n := by
  unfold isDoubleInt at h
  rw [Bool.and_eq_true, decide_eq_true_eq, decide_eq_true_eq] at h
  obtain ⟨hround, hfin⟩ := h
  unfold jsNumber
  have htrim : trim (intToString n) = intToString n := trim_sqlLiteral (JsVal.num n)
  rw [htrim]
  cases n with
  | ofNat k =>
    obtain ⟨hne2, hdig, hval⟩ := natToString_spec k
    obtain ⟨c2, ds2, hcd2⟩ := exists_head_of_ne_nil _ hne2
    have hc2 : isDigitUnit c2 := hdig c2 (by rw [hcd2]; exact List.mem_cons_self _ _)
    have hisd := isDigits_natToString k
    have hround2 : roundNat k = k := hround
    have hfin2 : k < doubleLimit := hfin
    simp only [intToString]
    rw [hcd2] at hisd hval ⊢
    unfold isDigitUnit at hc2
    have n45 : ¬ c2 = 45 := by omega
    have n43 : ¬ c2 = 43 := by omega
    simp [integerNumber, n45, n43, hisd, hval, hround2, hfin2]
  | negSucc k =>
    obtain ⟨_, _, hval⟩ := natToString_spec (k + 1)
    have hisd := isDigits_natToString (k + 1)
    have hround2 : roundNat (k + 1) = k + 1 := hround
    have hfin2 : k + 1 < doubleLimit := hfin
    simp only [intToString]
    simp only [hisd, and_self, if_true, integerNumber, hval, hround2, hfin2]
    congr 1

theorem jsonValue_of_exact (numberOther : JsString → JsVal) (v : JsVal)
    (h : ∀ n, v = JsVal.num n → isDoubleInt n = true) : jsonValue numberOther v = v := by
  cases v with
  | num n => exact jsNumber_intToString numberOther n (h n rfl)
  | undefined => rfl
  | null => rfl
  | nan => rfl
  | str s => rfl

/-! ## The pattern `VALUES \((.*)\);$` -/

theorem u16_VALUES : u16 "VALUES (" = [86, 65, 76, 85, 69, 83, 32, 40] := by decide

theorem u16_close : u16 ");" = [41, 59] := by decide

theorem matchTailFrom_hit (rest : JsString) (k : Nat) (h : rest.drop k = u16 ");") :
    matchTailFrom rest k = some (rest.take k) := by
  cases k with
  | zero => simp only [matchTailFrom]; rw [if_pos h]
  | succ k => simp only [matchTailFrom]; rw [if_pos h]

theorem matchTailFrom_past (raw : JsString) (j : Nat) :
    matchTailFrom (raw ++ u16 ");") (raw.length + j) = some raw := by
  induction j with
  | zero =>
    rw [Nat.add_zero, matchTailFrom_hit _ _ (List.drop_left _ _), List.take_left]
  | succ j ih =>
    have hne : (raw ++ u16 ");").drop (raw.length + j + 1) ≠ u16 ");" := by
      intro h
      have hl := congrArg List.length h
      simp [u16_close] at hl
      omega
    have hstep : matchTailFrom (raw ++ u16 ");") (raw.length + j + 1)
        = matchTailFrom (raw ++ u16 ");") (raw.length + j) := by
      simp only [matchTailFrom]
      rw [if_neg hne]
    rw [← Nat.add_assoc, hstep, ih]

theorem matchAt_values (raw tail : JsString) (htail : tail = raw ++ u16 ");")
    (hlt : ∀ c ∈ raw, isLineTerminator c = false) :
    matchAt (u16 "VALUES (" ++ tail) = some raw := by
  subst htail
  have hpre : (u16 "VALUES (").isPrefixOf (u16 "VALUES (" ++ (raw ++ u16 ");")) = true := by
    rw [List.isPrefixOf_iff_prefix]
    exact List.prefix_append _ _
  have hdrop : (u16 "VALUES (" ++ (raw ++ u16 ");")).drop 8 = raw ++ u16 ");" :=
    List.drop_left' (by rw [u16_VALUES]; rfl)
  have htake : (raw ++ u16 ");").takeWhile (fun c => !isLineTerminator c) = raw ++ u16 ");" := by
    rw [List.takeWhile_eq_self_iff]
    intro c hc
    rw [List.mem_append] at hc
    rcases hc with hc | hc
    · simp [hlt c hc]
    · rw [u16_close] at hc
      simp only [List.mem_cons, List.mem_singleton, List.not_mem_nil, or_false] at hc
      rcases hc with hc | hc <;> subst hc <;> decide
  unfold matchAt
  rw [if_pos hpre, hdrop, htake, List.length_append]
  exact matchTailFrom_past raw _

theorem matchAt_none (s : JsString) (h : (u16 "VALUES (").isPrefixOf s = false) :
    matchAt s = none := by
  unfold matchAt
  simp [h]

theorem matchValues_skip (rest : JsString) :
    ∀ pre : JsString,
      (∀ p q : JsString, pre = q ++ p → p ≠ [] →
        (u16 "VALUES (").isPrefixOf (p ++ rest) = false) →
      matchValues (pre ++ rest) = matchValues rest := by
  intro pre
  induction pre with
  | nil => intro _; rfl
  | cons c pre ih =>
    intro h
    have h1 : matchAt (c :: (pre ++ rest)) = none :=
      matchAt_none _ (h (c :: pre) [] rfl (by simp))
    have h2 : matchValues (c :: (pre ++ rest)) = matchValues (pre ++ rest) := by
      simp only [matchValues, h1]
    rw [List.cons_append, h2]
    apply ih
    intro p q hpq hp
    exact h p (c :: q) (by rw [hpq]; rfl) hp

/-- Before the opening parenthesis of a statement the pattern cannot start: its
eighth code unit would be a parenthesis. -/
theorem not_prefix_before_paren (p tail : JsString) (hp : p ≠ []) (h40 : 40 ∉ p) :
    (u16 "VALUES (").isPrefixOf (p ++ (u16 "VALUES (" ++ tail)) = false := by
  cases hpre : (u16 "VALUES (").isPrefixOf (p ++ (u16 "VALUES (" ++ tail)) with
  | false => rfl
  | true =>
    exfalso
    rw [List.isPrefixOf_iff_prefix] at hpre
    have hsplit : p ++ (u16 "VALUES (" ++ tail)
        = (p ++ [86, 65, 76, 85, 69, 83, 32]) ++ (40 :: tail) := by
      rw [u16_VALUES]; simp
    rw [hsplit] at hpre
    have hlen : (u16 "VALUES (").length ≤ (p ++ [86, 65, 76, 85, 69, 83, 32]).length := by
      rw [u16_VALUES, List.length_append]
      have : 0 < p.length := List.length_pos.2 hp
      simp
      omega
    have hin := List.prefix_of_prefix_length_le hpre (List.prefix_append _ _) hlen
    have h40in : 40 ∈ p ++ [86, 65, 76, 85, 69, 83, 32] :=
      hin.subset (by rw [u16_VALUES]; simp)
    rw [List.mem_append] at h40in
    rcases h40in with h | h
    · exact h40 h
    · simp at h

/-! ## C7: `parseInsertValues` on a rendered statement -/

theorem mem_doubleQuotes (s : JsString) (c : Nat) (h : c ∈ doubleQuotes s) : c ∈ s := by
  induction s with
  | nil => simp [doubleQuotes] at h
  | cons d s ih =>
    by_cases hd : d = 39
    · subst hd
      simp only [doubleQuotes, if_true, List.mem_cons] at h
      rcases h with h | h | h
      · exact h ▸ List.mem_cons_self _ _
      · exact h ▸ List.mem_cons_self _ _
      · exact List.mem_cons_of_mem _ (ih h)
    · simp only [doubleQuotes, hd, if_false, List.mem_cons] at h
      rcases h with h | h
      · exact h ▸ List.mem_cons_self _ _
      · exact List.mem_cons_of_mem _ (ih h)

theorem noLineTerminator_sqlLiteral (v : JsVal) (hv : sqlValue v = true) :
    ∀ c ∈ sqlLiteral v, isLineTerminator c = false := by
  intro c hc
  cases v with
  | undefined => simp [sqlValue] at hv
  | nan => simp [sqlValue] at hv
  | null =>
    simp only [sqlLiteral, u16_NULL, List.mem_cons, List.mem_singleton, List.not_mem_nil,
      or_false] at hc
    rcases hc with hc | hc | hc | hc <;> subst hc <;> decide
  | num n =>
    rcases (intToString_units n).2 c hc with hd | hd
    · exact isLineTerminator_digit c hd
    · subst hd; decide
  | str s =>
    simp only [sqlLiteral, List.cons_append, List.mem_cons, List.mem_append,
      List.mem_singleton, List.not_mem_nil, or_false] at hc
    simp only [sqlValue, List.all_eq_true, Bool.not_eq_true'] at hv
    rcases hc with hc | hc | hc
    · subst hc; decide
    · exact hv c (mem_doubleQuotes s c hc)
    · subst hc; decide

theorem mem_join (sep : JsString) (xs : List JsString) (c : Nat) (h : c ∈ join sep xs) :
    c ∈ sep ∨ ∃ x ∈ xs, c ∈ x := by
  induction xs with
  | nil => simp [join] at h
  | cons x xs ih =>
    cases xs with
    | nil => exact Or.inr ⟨x, List.mem_cons_self _ _, by simpa [join] using h⟩
    | cons y rest =>
      simp only [join, List.mem_append] at h
      rcases h with (h | h) | h
      · exact Or.inr ⟨x, List.mem_cons_self _ _, h⟩
      · exact Or.inl h
      · rcases ih h with h2 | ⟨z, hz, hcz⟩
        · exact Or.inl h2
        · exact Or.inr ⟨z, List.mem_cons_of_mem _ hz, hcz⟩

theorem noLineTerminator_join (vs : List JsVal) (hvs : ∀ v ∈ vs, sqlValue v = true) :
    ∀ c ∈ join (u16 ", ") (vs.map sqlLiteral), isLineTerminator c = false := by
  intro c hc
  rcases mem_join _ _ c hc with h | ⟨x, hx, hcx⟩
  · rw [u16_sep] at h
    simp only [List.mem_cons, List.mem_singleton, List.not_mem_nil, or_false] at h
    rcases h with h | h <;> subst h <;> decide
  · obtain ⟨v, hv, rfl⟩ := List.mem_map.1 hx
    exact noLineTerminator_sqlLiteral v (hvs v hv) c hcx

theorem matchValues_of_matchAt (s raw : JsString) (h : matchAt s = some raw) :
    matchValues s = some raw := by
  cases s with
  | nil => simpa [matchValues] using h
  | cons c cs => simp [matchValues, h]

theorem insertLine_split (table : JsString) (vs : List JsVal) :
    insertLine table vs
      = (u16 "INSERT INTO \"" ++ table ++ [34, 32])
        ++ (u16 "VALUES (" ++ (join (u16 ", ") (vs.map sqlLiteral) ++ u16 ");")) := by
  have h : u16 "\" VALUES (" = [34, 32] ++ u16 "VALUES (" := by decide
  unfold insertLine
  rw [h]
  simp only [List.append_assoc]

/-- The pattern finds the values of a rendered statement: the group is the text
between the parentheses. -/
theorem matchValues_insertLine (table : JsString) (vs : List JsVal)
    (hvs : ∀ v ∈ vs, sqlValue v = true) (htable : 40 ∉ table) :
    matchValues (insertLine table vs) = some (join (u16 ", ") (vs.map sqlLiteral)) := by
  rw [insertLine_split, matchValues_skip]
  · exact matchValues_of_matchAt _ _ (matchAt_values _ _ rfl (noLineTerminator_join vs hvs))
  · intro p q hpq hp
    apply not_prefix_before_paren p _ hp
    intro h40
    have hin : 40 ∈ u16 "INSERT INTO \"" ++ table ++ [34, 32] := by
      rw [hpq]; exact List.mem_append_right _ h40
    rw [List.mem_append, List.mem_append] at hin
    rcases hin with (h | h) | h
    · revert h; decide
    · exact htable h
    · revert h; decide

/-- The rendered statement of a non-empty list of values parses to the values, each
integer as `Number` converts its numeral. -/
theorem parseInsertValues_insertLine (numberOther : JsString → JsVal) (table : JsString)
    (vs : List JsVal) (hne : vs ≠ []) (hvs : ∀ v ∈ vs, sqlValue v = true)
    (htable : 40 ∉ table) :
    parseInsertValues numberOther (insertLine table vs)
      = some (vs.map (jsonValue numberOther)) := by
  unfold parseInsertValues
  rw [matchValues_insertLine table vs hvs htable]
  cases vs with
  | nil => exact absurd rfl hne
  | cons v rest =>
    simp only
    rw [scan_join rest v _ rfl]
    simp only [List.nil_append, trim_sqlLiteral, trim_space_sqlLiteral, List.map_cons,
      List.map_map]
    congr 1
    rw [decodeValue_sqlLiteral numberOther v (hvs v (List.mem_cons_self _ _))]
    congr 1
    have : ∀ l : List JsVal, (∀ w ∈ l, sqlValue w = true) →
        l.map (decodeValue numberOther ∘ fun w => sqlLiteral w)
          = l.map (jsonValue numberOther) := by
      intro l hl
      induction l with
      | nil => rfl
      | cons w l ih =>
        simp only [List.map_cons, Function.comp, List.cons.injEq]
        exact ⟨decodeValue_sqlLiteral numberOther w (hl w (List.mem_cons_self _ _)),
          ih (fun z hz => hl z (List.mem_cons_of_mem _ hz))⟩
    exact this rest (fun w hw => hvs w (List.mem_cons_of_mem _ hw))

theorem map_jsonValue_of_exact (numberOther : JsString → JsVal) (vs : List JsVal)
    (hexact : ∀ v ∈ vs, exactValue v = true) : vs.map (jsonValue numberOther) = vs := by
  induction vs with
  | nil => rfl
  | cons v vs ih =>
    rw [List.map_cons, ih (fun w hw => hexact w (List.mem_cons_of_mem _ hw))]
    congr 1
    apply jsonValue_of_exact
    intro n hn
    have := hexact v (List.mem_cons_self _ _)
    rw [hn] at this
    exact this

/-- The rendered statement of values whose integers a double holds exactly parses
back to the values. -/
theorem parseInsertValues_insertLine_exact (numberOther : JsString → JsVal)
    (table : JsString) (vs : List JsVal) (hne : vs ≠ [])
    (hvs : ∀ v ∈ vs, sqlValue v = true) (hexact : ∀ v ∈ vs, exactValue v = true)
    (htable : 40 ∉ table) :
    parseInsertValues numberOther (insertLine table vs) = some vs := by
  rw [parseInsertValues_insertLine numberOther table vs hne hvs htable,
    map_jsonValue_of_exact numberOther vs hexact]

/-- C7 as stated fails: for the integer 9007199254740993 the statement
`INSERT INTO "T" VALUES (9007199254740993);` parses to 9007199254740992, the double
nearest to it, not to the integer. -/
theorem parseInsertValues_rounds_large_integer :
    sqlValue (JsVal.num 9007199254740993) = true ∧
    insertLine (u16 "T") [JsVal.num 9007199254740993]
      = u16 "INSERT INTO \"T\" VALUES (9007199254740993);" ∧
    parseInsertValues numberNaN (u16 "INSERT INTO \"T\" VALUES (9007199254740993);")
      = some [JsVal.num 9007199254740992] ∧
    parseInsertValues numberNaN (insertLine (u16 "T") [JsVal.num 9007199254740993])
      ≠ some [JsVal.num 9007199254740993] := by
  decide

/-- C7, amended. For every non-empty list of values, each `null`, an integer that a
double holds exactly, or a string with no line terminator, `parseInsertValues`
applied to the statement `INSERT INTO "T" VALUES (l1, ..., ln);` returns exactly the
values, where a literal is `NULL`, the decimal numeral, or the string in single
quotes with each quote inside it doubled; the same holds with any table name without
an opening parenthesis in place of `T`.  In particular the statement
`INSERT INTO "T" VALUES ('a,b', 'it''s', NULL, -42);` yields the four values `a,b`,
`it's`, `null` and -42.  Every integer of magnitude at most 2^53 is held exactly by
a double; for any integers at all, each is returned as `Number` converts its
numeral, that is as the nearest double. -/
theorem parseInsertValues_roundtrip (numberOther : JsString → JsVal)
    (vs : List JsVal) (hne : vs ≠ []) (hvs : ∀ v ∈ vs, sqlValue v = true)
    (hexact : ∀ v ∈ vs, exactValue v = true) :
    parseInsertValues numberOther (insertLine (u16 "T") vs) = some vs ∧
      (∀ table : JsString, 40 ∉ table →
        parseInsertValues numberOther (insertLine table vs) = some vs) ∧
      parseInsertValues numberOther
          (u16 "INSERT INTO \"T\" VALUES ('a,b', 'it''s', NULL, -42);")
        = some [JsVal.str (u16 "a,b"), JsVal.str (u16 "it's"), JsVal.null, JsVal.num (-42)] ∧
      (∀ n : Int, n.natAbs ≤ 2 ^ 53 → exactValue (JsVal.num n) = true) ∧
      (∀ ws : List JsVal, ws ≠ [] → (∀ v ∈ ws, sqlValue v = true) →
        parseInsertValues numberOther (insertLine (u16 "T") ws)
          = some (ws.map (jsonValue numberOther))) := by
  refine ⟨parseInsertValues_insertLine_exact numberOther (u16 "T") vs hne hvs hexact
      (by decide),
    fun table htable =>
      parseInsertValues_insertLine_exact numberOther table vs hne hvs hexact htable,
    ?_, fun n hn => isDoubleInt_of_le n hn,
    fun ws hws hsql => parseInsertValues_insertLine numberOther (u16 "T") ws hws hsql
      (by decide)⟩
  have hline : u16 "INSERT INTO \"T\" VALUES ('a,b', 'it''s', NULL, -42);"
      = insertLine (u16 "T")
          [JsVal.str (u16 "a,b"), JsVal.str (u16 "it's"), JsVal.null, JsVal.num (-42)] := by
    decide
  rw [hline]
  exact parseInsertValues_insertLine_exact numberOther (u16 "T") _ (by simp) (by decide)
    (by decide) (by decide)

/-- The statement with the values 7, the string `O'Neil, B`, `null` and -3 parses
back to them, for the table `T` and for the table `RoomInfo`. -/
theorem parseInsertValues_roundtrip_witness :
    insertLine (u16 "T")
        [JsVal.num 7, JsVal.str (u16 "O'Neil, B"), JsVal.null, JsVal.num (-3)]
      = u16 "INSERT INTO \"T\" VALUES (7, 'O''Neil, B', NULL, -3);" ∧
    parseInsertValues numberNaN
        (insertLine (u16 "T")
          [JsVal.num 7, JsVal.str (u16 "O'Neil, B"), JsVal.null, JsVal.num (-3)])
      = some [JsVal.num 7, JsVal.str (u16 "O'Neil, B"), JsVal.null, JsVal.num (-3)] ∧
    parseInsertValues numberNaN
        (insertLine (u16 "RoomInfo")
          [JsVal.num 7, JsVal.str (u16 "O'Neil, B"), JsVal.null, JsVal.num (-3)])
      = some [JsVal.num 7, JsVal.str (u16 "O'Neil, B"), JsVal.null, JsVal.num (-3)] :=
  ⟨by decide,
    (parseInsertValues_roundtrip numberNaN
      [JsVal.num 7, JsVal.str (u16 "O'Neil, B"), JsVal.null, JsVal.num (-3)]
      (by simp) (by decide) (by decide)).1,
    (parseInsertValues_roundtrip numberNaN
      [JsVal.num 7, JsVal.str (u16 "O'Neil, B"), JsVal.null, JsVal.num (-3)]
      (by simp) (by decide) (by decide)).2.1 (u16 "RoomInfo") (by decide)⟩

/-! ## C8: what a second load does -/

/-- C8 as stated fails for the SQL-dump variant: the sample dump loaded into the
store that already holds it yields six schedule entries, and loaded into the empty
store three. -/
theorem parseSqlText_second_load_differs :
    ∃ once twice, parseSqlText numberNaN sampleWeekDump emptyState = some once ∧
      parseSqlText numberNaN sampleWeekDump once = some twice ∧
      once.schedules.length = 3 ∧ twice.schedules.length = 6 ∧ twice ≠ once := by
  refine ⟨_, _, parseSqlText_emptyState numberNaN sampleWeekDump,
    parseSqlText_eq numberNaN sampleWeekDump _, by decide, by decide, by decide⟩

/-- C8, amended. In the JSON variant a load is clear-then-rebuild: for all data sets
A and B, loading B into a store that holds the result of loading A yields the same
store as loading B into the empty store, and loading a data set twice yields the
same store as loading it once.  In the SQL-dump variant `parseSqlText` does not
clear the store: run on the empty store it yields the store built from the rows of
the dump, and run on any store it appends the parsed schedule entries after those
already there, sets each parsed room in `roomsById` under its id (in place of a room
already stored under that id) and appends it to the list of its floor in
`roomsByFloor`, sets each parsed class info under its schedule id (in place of one
already stored there), and recomputes `days` and `periods` from all the schedule
entries of the resulting store. -/
theorem load_rebuilds_and_parse_appends (numberOther : JsString → JsVal)
    (dataA dataB : Data) (text : JsString) (prior : State) :
    (∃ storeA storeB, loadData dataA prior = some storeA ∧
      loadData dataB storeA = some storeB ∧ loadData dataB emptyState = some storeB) ∧
    (∃ store, loadData dataA prior = some store ∧ loadData dataA store = some store) ∧
    parseSqlText numberOther text emptyState
      = some (buildStore (roomsOf (sqlRows numberOther text))
          (infosOf (sqlRows numberOther text)) (entriesOf (sqlRows numberOther text))) ∧
    (∃ store, parseSqlText numberOther text prior = some store ∧
      store.schedules = prior.schedules ++ entriesOf (sqlRows numberOther text) ∧
      store.roomsById = (roomsOf (sqlRows numberOther text)).foldl
        (fun m room => JsMap.set m room.id room) prior.roomsById ∧
      store.roomsByFloor = (roomsOf (sqlRows numberOther text)).foldl
        (fun m room => appendAt m room.floor room) prior.roomsByFloor ∧
      store.classInfoBySchedule = (infosOf (sqlRows numberOther text)).foldl
        (fun m info => JsMap.set m info.scheduleId info) prior.classInfoBySchedule ∧
      store.days = jsSort (arrayFromSet
        ((prior.schedules ++ entriesOf (sqlRows numberOther text)).map (fun s => s.day))) ∧
      store.periods = jsSort (arrayFromSet
        ((prior.schedules ++ entriesOf (sqlRows numberOther text)).map (fun s => s.period)))) := by
  refine ⟨⟨_, _, loadData_eq dataA prior, loadData_eq dataB _, loadData_eq dataB _⟩,
    ⟨_, loadData_eq dataA prior, loadData_eq dataA _⟩,
    parseSqlText_emptyState numberOther text, ?_⟩
  refine ⟨_, parseSqlText_eq numberOther text prior, ?_⟩
  rw [foldl_applyRow]
  exact ⟨rfl, rfl, rfl, rfl, rfl, rfl⟩

/-! ## C9: the floor index -/

theorem get_foldl_appendAt (rooms : List Room) (f : JsVal) :
    ∀ m : JsMap (List Room),
      JsMap.get (rooms.foldl (fun m room => appendAt m room.floor room) m) f
        = if rooms.filter (fun room => decide (room.floor = f)) = [] then JsMap.get m f
          else some ((JsMap.get m f).getD []
            ++ rooms.filter (fun room => decide (room.floor = f))) := by
  induction rooms with
  | nil => intro m; simp
  | cons r rooms ih =>
    intro m
    rw [List.foldl_cons, ih, get_appendAt]
    by_cases hr : r.floor = f
    · subst hr
      by_cases hl : rooms.filter (fun room => decide (room.floor = r.floor)) = [] <;>
        simp [List.filter, hl]
    · by_cases hl : rooms.filter (fun room => decide (room.floor = f)) = [] <;>
        simp [List.filter, hr, hl]

theorem groupsByFloor_foldl (rooms : List Room) :
    groupsByFloor (rooms.foldl (fun m room => appendAt m room.floor room) []) rooms := by
  have hget : ∀ f, JsMap.get (rooms.foldl (fun m room => appendAt m room.floor room) []) f
      = if rooms.filter (fun room => decide (room.floor = f)) = [] then none
        else some (rooms.filter (fun room => decide (room.floor = f))) := by
    intro f
    rw [get_foldl_appendAt]
    simp [JsMap.get]
  refine ⟨?_, ?_, ?_⟩
  · intro f hf
    rw [hget f, if_neg hf]
  · intro f hf
    simp [JsMap.has, hget f, hf]
  · intro room hroom
    have hmem : room ∈ rooms.filter (fun r => decide (r.floor = room.floor)) :=
      List.mem_filter.2 ⟨hroom, by simp⟩
    have hne : rooms.filter (fun r => decide (r.floor = room.floor)) ≠ [] :=
      List.ne_nil_of_mem hmem
    refine ⟨room.floor, ⟨_, by rw [hget, if_neg hne], hmem⟩, ?_⟩
    rintro f ⟨l, hl, hin⟩
    rw [hget f] at hl
    by_cases hf : rooms.filter (fun r => decide (r.floor = f)) = []
    · rw [if_pos hf] at hl; cases hl
    · rw [if_neg hf] at hl
      cases hl
      have := (List.mem_filter.1 hin).2
      exact (of_decide_eq_true this).symm

/-- C9. For every list of room rows loaded into the empty store, by `loadData` or by
`parseSqlText`, and every floor f, `roomsByFloor.get(f)` is exactly the subsequence
of the loaded rooms whose floor is f, in load order; a floor with no rooms is not a
key of `roomsByFloor`; and every loaded room appears in the list of exactly one
floor. -/
theorem roomsByFloor_groups_loaded_rooms (numberOther : JsString → JsVal) (data : Data)
    (text : JsString) :
    (∃ state, loadData data emptyState = some state ∧
      groupsByFloor state.roomsByFloor (data.rooms.map roomData)) ∧
    (∃ state, parseSqlText numberOther text emptyState = some state ∧
      groupsByFloor state.roomsByFloor (roomsOf (sqlRows numberOther text))) := by
  constructor
  · exact ⟨_, loadData_eq data emptyState, groupsByFloor_foldl _⟩
  · exact ⟨_, parseSqlText_emptyState numberOther text, groupsByFloor_foldl _⟩

/-- The sample data: floor 0 holds rooms 1 and 2 in load order, and floor 3, which
has no room, is not a key. -/
theorem roomsByFloor_groups_loaded_rooms_witness :
    ∃ state, loadData sampleData emptyState = some state ∧
      JsMap.get state.roomsByFloor (JsVal.num 0)
        = some [roomData (sampleRoom 1 0), roomData (sampleRoom 2 0)] ∧
      JsMap.has state.roomsByFloor (JsVal.num 3) = false := by
  obtain ⟨⟨state, hload, hget, hkey, _⟩, _⟩ :=
    roomsByFloor_groups_loaded_rooms numberNaN sampleData []
  refine ⟨state, hload, ?_, hkey (JsVal.num 3) (by decide)⟩
  rw [hget (JsVal.num 0) (by decide)]
  decide

/-! ## The dump of a data set, line by line -/

theorem splitLines_step (c d : Nat) (rest cur : JsString) (h10 : c ≠ 10) (h13 : c ≠ 13) :
    splitLines (c :: d :: rest) cur = splitLines (d :: rest) (cur ++ [c]) := by
  simp [splitLines, h10, h13]

theorem splitLines_feed (rest cur : JsString) :
    splitLines (10 :: rest) cur = cur :: splitLines rest [] := by
  cases rest with
  | nil => simp [splitLines]
  | cons d rest => simp [splitLines]

theorem splitLines_line (line : JsString) :
    ∀ (rest cur : JsString), (∀ c ∈ line, c ≠ 10 ∧ c ≠ 13) →
      splitLines (line ++ 10 :: rest) cur = (cur ++ line) :: splitLines rest [] := by
  induction line with
  | nil => intro rest cur _; simp [splitLines_feed]
  | cons c line ih =>
    intro rest cur h
    have hc := h c (List.mem_cons_self _ _)
    obtain ⟨d, tl, htl⟩ : ∃ d tl, line ++ 10 :: rest = d :: tl := by
      cases line with
      | nil => exact ⟨10, rest, rfl⟩
      | cons d line => exact ⟨d, line ++ 10 :: rest, rfl⟩
    rw [List.cons_append, htl, splitLines_step c d tl cur hc.1 hc.2, ← htl,
      ih rest (cur ++ [c]) (fun z hz => h z (List.mem_cons_of_mem _ hz))]
    simp

theorem splitLines_unlines (lines : List JsString)
    (h : ∀ line ∈ lines, ∀ c ∈ line, c ≠ 10 ∧ c ≠ 13) :
    splitLines (unlines lines) [] = lines ++ [[]] := by
  induction lines with
  | nil => rfl
  | cons line lines ih =>
    have h1 := h line (List.mem_cons_self _ _)
    have h2 := ih (fun l hl => h l (List.mem_cons_of_mem _ hl))
    simp only [unlines, List.foldr_cons] at h2 ⊢
    rw [splitLines_line line _ [] h1, h2]
    simp

theorem ne_feed_of_not_lineTerminator (c : Nat) (h : isLineTerminator c = false) :
    c ≠ 10 ∧ c ≠ 13 := by
  unfold isLineTerminator at h
  simp only [Bool.or_eq_false_iff, decide_eq_false_iff_not] at h
  exact ⟨h.1.1.1, h.1.1.2⟩

theorem noLineTerminator_insertLine (table : JsString) (vs : List JsVal)
    (htable : ∀ c ∈ table, isLineTerminator c = false)
    (hvs : ∀ v ∈ vs, sqlValue v = true) :
    ∀ c ∈ insertLine table vs, c ≠ 10 ∧ c ≠ 13 := by
  intro c hc
  apply ne_feed_of_not_lineTerminator
  unfold insertLine at hc
  simp only [List.mem_append] at hc
  rcases hc with (((hc | hc) | hc) | hc) | hc
  · revert c; decide
  · exact htable c hc
  · revert c; decide
  · exact noLineTerminator_join vs hvs c hc
  · revert c; decide

/-! ## What `parseSqlText` reads from the dump -/

theorem parsedRow_roomLine (numberOther : JsString → JsVal) (row : RoomRow)
    (h : [row.RoomID, row.RoomNumber, row.RoomFloor, row.RoomType, row.X, row.Y, row.Width,
      row.Height].all sqlValue = true) :
    parsedRow numberOther (roomLine row)
      = some (ParsedRow.room (roomData (jsonRoomRow numberOther row))) := by
  have hp : (u16 "INSERT INTO \"RoomInfo\"").isPrefixOf (roomLine row) = true := rfl
  have hv := parseInsertValues_insertLine numberOther (u16 "RoomInfo")
    [row.RoomID, row.RoomNumber, row.RoomFloor, row.RoomType, row.X, row.Y, row.Width,
      row.Height] (by simp) (List.all_eq_true.1 h) (by decide)
  unfold parsedRow
  rw [if_pos hp]
  unfold roomLine
  rw [hv]
  rfl

theorem parsedRow_classInfoLine (numberOther : JsString → JsVal) (row : ClassInfoRow)
    (h : [row.ScheduleID, row.TeacherName, row.GradeLevel, row.ClassName].all sqlValue = true) :
    parsedRow numberOther (classInfoLine row)
      = some (ParsedRow.info (classInfoData (jsonClassInfoRow numberOther row))) := by
  have hp1 : ¬ (u16 "INSERT INTO \"RoomInfo\"").isPrefixOf (classInfoLine row) = true := by
    have : (u16 "INSERT INTO \"RoomInfo\"").isPrefixOf (classInfoLine row) = false := rfl
    rw [this]; simp
  have hp2 : (u16 "INSERT INTO \"ClassInfo\"").isPrefixOf (classInfoLine row) = true := rfl
  have hv := parseInsertValues_insertLine numberOther (u16 "ClassInfo")
    [row.ScheduleID, row.TeacherName, row.GradeLevel, row.ClassName]
    (by simp) (List.all_eq_true.1 h) (by decide)
  unfold parsedRow
  rw [if_neg hp1, if_pos hp2]
  unfold classInfoLine
  rw [hv]
  rfl

theorem parsedRow_scheduleLine (numberOther : JsString → JsVal) (row : ScheduleRow)
    (h : [row.ScheduleID, row.ClassID, row.Day, row.Period, row.RoomID].all sqlValue = true) :
    parsedRow numberOther (scheduleLine row)
      = some (ParsedRow.entry (entryData (jsonScheduleRow numberOther row))) := by
  have hp1 : ¬ (u16 "INSERT INTO \"RoomInfo\"").isPrefixOf (scheduleLine row) = true := by
    have : (u16 "INSERT INTO \"RoomInfo\"").isPrefixOf (scheduleLine row) = false := rfl
    rw [this]; simp
  have hp2 : ¬ (u16 "INSERT INTO \"ClassInfo\"").isPrefixOf (scheduleLine row) = true := by
    have : (u16 "INSERT INTO \"ClassInfo\"").isPrefixOf (scheduleLine row) = false := rfl
    rw [this]; simp
  have hp3 : (u16 "INSERT INTO \"ClassSchedule\"").isPrefixOf (scheduleLine row) = true := rfl
  have hv := parseInsertValues_insertLine numberOther (u16 "ClassSchedule")
    [row.ScheduleID, row.ClassID, row.Day, row.Period, row.RoomID]
    (by simp) (List.all_eq_true.1 h) (by decide)
  unfold parsedRow
  rw [if_neg hp1, if_neg hp2, if_pos hp3]
  unfold scheduleLine
  rw [hv]
  rfl

theorem parsedRow_nil (numberOther : JsString → JsVal) : parsedRow numberOther [] = none :=
  rfl

theorem sqlRows_dumpOf (numberOther : JsString → JsVal) (data : Data)
    (hvalid : validData data = true) :
    sqlRows numberOther (dumpOf data)
      = (jsonDocument numberOther data).rooms.map
          (fun row => some (ParsedRow.room (roomData row)))
        ++ (jsonDocument numberOther data).classInfo.map
          (fun row => some (ParsedRow.info (classInfoData row)))
        ++ (jsonDocument numberOther data).schedules.map
          (fun row => some (ParsedRow.entry (entryData row)))
        ++ [none] := by
  unfold validData at hvalid
  simp only [Bool.and_eq_true, List.all_eq_true] at hvalid
  obtain ⟨⟨hrooms, hinfos⟩, hscheds⟩ := hvalid
  have hr : ∀ row ∈ data.rooms, [row.RoomID, row.RoomNumber, row.RoomFloor, row.RoomType,
      row.X, row.Y, row.Width, row.Height].all sqlValue = true := by
    intro row hrow
    rw [List.all_eq_true]
    exact hrooms row hrow
  have hi : ∀ row ∈ data.classInfo, [row.ScheduleID, row.TeacherName, row.GradeLevel,
      row.ClassName].all sqlValue = true := by
    intro row hrow
    rw [List.all_eq_true]
    exact hinfos row hrow
  have hs : ∀ row ∈ data.schedules, [row.ScheduleID, row.ClassID, row.Day, row.Period,
      row.RoomID].all sqlValue = true := by
    intro row hrow
    rw [List.all_eq_true]
    exact hscheds row hrow
  have hlines : ∀ line ∈ dumpLines data, ∀ c ∈ line, c ≠ 10 ∧ c ≠ 13 := by
    intro line hline
    simp only [dumpLines, List.mem_append, List.mem_map] at hline
    rcases hline with (⟨row, hrow, rfl⟩ | ⟨row, hrow, rfl⟩) | ⟨row, hrow, rfl⟩
    · exact noLineTerminator_insertLine _ _ (by decide) (List.all_eq_true.1 (hr row hrow))
    · exact noLineTerminator_insertLine _ _ (by decide) (List.all_eq_true.1 (hi row hrow))
    · exact noLineTerminator_insertLine _ _ (by decide) (List.all_eq_true.1 (hs row hrow))
  unfold sqlRows dumpOf
  rw [splitLines_unlines _ hlines]
  simp only [dumpLines, jsonDocument, List.map_append, List.map_map, List.map_cons,
    List.map_nil, parsedRow_nil]
  congr 1
  congr 1
  congr 1
  · apply List.map_congr_left
    intro row hrow
    exact parsedRow_roomLine numberOther row (hr row hrow)
  · apply List.map_congr_left
    intro row hrow
    exact parsedRow_classInfoLine numberOther row (hi row hrow)
  · apply List.map_congr_left
    intro row hrow
    exact parsedRow_scheduleLine numberOther row (hs row hrow)

theorem filterMap_const_none {α β : Type} (l : List α) :
    l.filterMap (fun _ => (none : Option β)) = [] := by
  induction l with
  | nil => rfl
  | cons a l ih => simp [List.filterMap_cons, ih]

theorem filterMap_some_eq_map {α β : Type} (f : α → β) (l : List α) :
    l.filterMap (fun x => some (f x)) = l.map f := by
  induction l with
  | nil => rfl
  | cons a l ih => simp [List.filterMap_cons, ih]

theorem roomsOf_dump (rooms : List RoomRow) (infos : List ClassInfoRow)
    (scheds : List ScheduleRow) :
    roomsOf (rooms.map (fun row => some (ParsedRow.room (roomData row)))
        ++ infos.map (fun row => some (ParsedRow.info (classInfoData row)))
        ++ scheds.map (fun row => some (ParsedRow.entry (entryData row)))
        ++ [none])
      = rooms.map roomData := by
  simp [roomsOf, List.filterMap_append, List.filterMap_map, Function.comp_def,
    filterMap_const_none, filterMap_some_eq_map]

theorem infosOf_dump (rooms : List RoomRow) (infos : List ClassInfoRow)
    (scheds : List ScheduleRow) :
    infosOf (rooms.map (fun row => some (ParsedRow.room (roomData row)))
        ++ infos.map (fun row => some (ParsedRow.info (classInfoData row)))
        ++ scheds.map (fun row => some (ParsedRow.entry (entryData row)))
        ++ [none])
      = infos.map classInfoData := by
  simp [infosOf, List.filterMap_append, List.filterMap_map, Function.comp_def,
    filterMap_const_none, filterMap_some_eq_map]

theorem entriesOf_dump (rooms : List RoomRow) (infos : List ClassInfoRow)
    (scheds : List ScheduleRow) :
    entriesOf (rooms.map (fun row => some (ParsedRow.room (roomData row)))
        ++ infos.map (fun row => some (ParsedRow.info (classInfoData row)))
        ++ scheds.map (fun row => some (ParsedRow.entry (entryData row)))
        ++ [none])
      = scheds.map entryData := by
  simp [entriesOf, List.filterMap_append, List.filterMap_map, Function.comp_def,
    filterMap_const_none, filterMap_some_eq_map]

theorem jsonValue_of_exactValue (numberOther : JsString → JsVal) (v : JsVal)
    (h : exactValue v = true) : jsonValue numberOther v = v := by
  apply jsonValue_of_exact
  intro n hn
  rw [hn] at h
  exact h

theorem jsonDocument_of_exact (numberOther : JsString → JsVal) (data : Data)
    (h : exactData data = true) : jsonDocument numberOther data = data := by
  unfold exactData at h
  simp only [Bool.and_eq_true, List.all_eq_true] at h
  obtain ⟨⟨hrooms, hinfos⟩, hscheds⟩ := h
  have h1 : data.rooms.map (jsonRoomRow numberOther) = data.rooms := by
    rw [List.map_congr_left (g := id), List.map_id]
    intro row hrow
    have hr := hrooms row hrow
    simp only [List.mem_cons, List.mem_singleton, List.not_mem_nil, or_false,
      forall_eq_or_imp, forall_eq] at hr
    obtain ⟨a1, a2, a3, a4, a5, a6, a7, a8⟩ := hr
    cases row
    simp only [jsonRoomRow, id] at *
    simp [jsonValue_of_exactValue, a1, a2, a3, a4, a5, a6, a7, a8]
  have h2 : data.classInfo.map (jsonClassInfoRow numberOther) = data.classInfo := by
    rw [List.map_congr_left (g := id), List.map_id]
    intro row hrow
    have hr := hinfos row hrow
    simp only [List.mem_cons, List.mem_singleton, List.not_mem_nil, or_false,
      forall_eq_or_imp, forall_eq] at hr
    obtain ⟨a1, a2, a3, a4⟩ := hr
    cases row
    simp only [jsonClassInfoRow, id] at *
    simp [jsonValue_of_exactValue, a1, a2, a3, a4]
  have h3 : data.schedules.map (jsonScheduleRow numberOther) = data.schedules := by
    rw [List.map_congr_left (g := id), List.map_id]
    intro row hrow
    have hr := hscheds row hrow
    simp only [List.mem_cons, List.mem_singleton, List.not_mem_nil, or_false,
      forall_eq_or_imp, forall_eq] at hr
    obtain ⟨a1, a2, a3, a4, a5⟩ := hr
    cases row
    simp only [jsonScheduleRow, id] at *
    simp [jsonValue_of_exactValue, a1, a2, a3, a4, a5]
  cases data
  simp only [jsonDocument] at *
  rw [h1, h2, h3]

/-! ## C10: the two variants build the same store -/

/-- C10. For every data set whose fields are integers, strings without line
terminators, or `null`, `parseSqlText` applied from the empty store to the
insert-statement dump of the rows (one line per row, values in column order) yields
the same store as the populate step of `loadData` applied to the JSON document of
the same rows: the same `roomsById`, `roomsByFloor`, `classInfoBySchedule`,
`schedules`, `days` and `periods`; and so `getOccupancy` returns the same mapping in
both variants for every (day, period, floor).  In the JSON document, as in the
parsed dump, an integer is the double nearest to it; when a double holds every
integer of the data set exactly, the JSON document is the data set itself. -/
theorem parseSqlText_dump_eq_loadData (numberOther : JsString → JsVal) (data : Data)
    (hvalid : validData data = true) :
    ∃ fromSql fromJson,
      parseSqlText numberOther (dumpOf data) emptyState = some fromSql ∧
      loadData (jsonDocument numberOther data) emptyState = some fromJson ∧
      fromSql.roomsById = fromJson.roomsById ∧
      fromSql.roomsByFloor = fromJson.roomsByFloor ∧
      fromSql.classInfoBySchedule = fromJson.classInfoBySchedule ∧
      fromSql.schedules = fromJson.schedules ∧
      fromSql.days = fromJson.days ∧
      fromSql.periods = fromJson.periods ∧
      (∀ day period floor,
        getOccupancy fromSql day period floor = getOccupancy fromJson day period floor) ∧
      (exactData data = true → jsonDocument numberOther data = data ∧
        loadData data emptyState = some fromJson) := by
  have hsql := parseSqlText_emptyState numberOther (dumpOf data)
  rw [sqlRows_dumpOf numberOther data hvalid, roomsOf_dump, infosOf_dump, entriesOf_dump]
    at hsql
  refine ⟨_, _, hsql, loadData_eq (jsonDocument numberOther data) emptyState, rfl, rfl, rfl,
    rfl, rfl, rfl, fun _ _ _ => rfl, ?_⟩
  intro hexact
  have hdoc := jsonDocument_of_exact numberOther data hexact
  refine ⟨hdoc, ?_⟩
  rw [hdoc]
  exact loadData_eq data emptyState

/-- The sample data: every integer in it is held exactly by a double, so its JSON
document is the data itself, and its dump, parsed from the empty store, gives the
sample store, as does the JSON loader. -/
theorem parseSqlText_dump_eq_loadData_witness :
    validData sampleData = true ∧ exactData sampleData = true ∧
    parseSqlText numberNaN (dumpOf sampleData) emptyState = some sampleState ∧
    loadData sampleData emptyState = some sampleState := by
  obtain ⟨fromSql, fromJson, hsql, hjson, h1, h2, h3, h4, h5, h6, _, hexact⟩ :=
    parseSqlText_dump_eq_loadData numberNaN sampleData (by decide)
  have hval : loadData sampleData emptyState = some sampleState := by decide
  have hj : fromJson = sampleState :=
    Option.some.inj ((hexact (by decide)).2.symm.trans hval)
  have hs : fromSql = fromJson := by
    cases fromSql
    cases fromJson
    simp only at h1 h2 h3 h4 h5 h6
    rw [h1, h2, h3, h4, h5, h6]
  exact ⟨by decide, by decide, by rw [hsql, hs, hj], hval⟩

/-! ## C11: the initial selection of `buildFilters` -/

theorem floorLe_num (numberOther : JsString → JsVal) (x y : Int) :
    floorLe numberOther (JsVal.num x) (JsVal.num y) ↔ x ≤ y := by
  simp [floorLe, toNumber]

/-- The stable sort by `(a, b) => a - b` of integer keys starts with a smallest key. -/
theorem head_insertionSort_floors (numberOther : JsString → JsVal) :
    ∀ l : List JsVal, l ≠ [] → (∀ k ∈ l, ∃ n, k = JsVal.num n) →
      ∃ m rest, l.insertionSort (floorLe numberOther) = JsVal.num m :: rest ∧
        JsVal.num m ∈ l ∧ ∀ n, JsVal.num n ∈ l → m ≤ n := by
  intro l
  induction l with
  | nil => intro h _; exact absurd rfl h
  | cons a l ih =>
    intro _ hnum
    obtain ⟨x, rfl⟩ := hnum a (List.mem_cons_self _ _)
    by_cases hl : l = []
    · subst hl
      refine ⟨x, [], by simp, List.mem_cons_self _ _, ?_⟩
      intro n hn
      simp only [List.mem_singleton, JsVal.num.injEq] at hn
      omega
    · obtain ⟨m, rest, hsort, hmem, hmin⟩ :=
        ih hl (fun k hk => hnum k (List.mem_cons_of_mem _ hk))
      by_cases hx : x ≤ m
      · refine ⟨x, JsVal.num m :: rest, ?_, List.mem_cons_self _ _, ?_⟩
        · simp [List.insertionSort, hsort, List.orderedInsert, floorLe_num, hx]
        · intro n hn
          rcases List.mem_cons.1 hn with h | h
          · have : n = x := by injection h
            omega
          · exact le_trans hx (hmin n h)
      · refine ⟨m, List.orderedInsert (floorLe numberOther) (JsVal.num x) rest, ?_,
          List.mem_cons_of_mem _ hmem, ?_⟩
        · simp [List.insertionSort, hsort, List.orderedInsert, floorLe_num, hx]
        · intro n hn
          rcases List.mem_cons.1 hn with h | h
          · have : n = x := by injection h
            omega
          · exact hmin n h

theorem sortFloors_eq_of_defined (numberOther : JsString → JsVal) (xs : List JsVal)
    (h : ∀ x ∈ xs, x ≠ JsVal.undefined) :
    sortFloors numberOther xs = xs.insertionSort (floorLe numberOther) := by
  unfold sortFloors
  have h1 : xs.filter (fun v => decide (v ≠ JsVal.undefined)) = xs := by
    rw [List.filter_eq_self]
    intro x hx
    simpa using h x hx
  have h2 : xs.filter (fun v => decide (v = JsVal.undefined)) = [] := by
    rw [List.filter_eq_nil_iff]
    intro x hx
    simpa using h x hx
  rw [h1, h2, List.append_nil]

theorem orElse_str (s : JsString) : orElse (JsVal.str s) (JsVal.str []) = JsVal.str s := by
  unfold orElse
  by_cases h : s = []
  · subst h; rfl
  · simp [truthy, h]

/-- What `buildFilters` assigns on a store with string days and periods and integer
floors, none of the three empty: the first day, the first period, and the smallest
floor unless that floor is 0, for which it assigns the empty string. -/
theorem buildFilters_assigns (numberOther : JsString → JsVal) (state : State)
    (hdays : ∀ v ∈ state.days, isStr v = true)
    (hperiods : ∀ v ∈ state.periods, isStr v = true)
    (hd : state.days ≠ []) (hp : state.periods ≠ [])
    (hfloors : ∀ k ∈ JsMap.keys state.roomsByFloor, ∃ n, k = JsVal.num n)
    (hk : JsMap.keys state.roomsByFloor ≠ []) :
    ∃ sel m, buildFilters numberOther state = some sel ∧
      state.days.head? = some sel.day ∧ state.periods.head? = some sel.period ∧
      (sortFloors numberOther (JsMap.keys state.roomsByFloor)).head? = some (JsVal.num m) ∧
      JsVal.num m ∈ JsMap.keys state.roomsByFloor ∧
      (∀ n, JsVal.num n ∈ JsMap.keys state.roomsByFloor → m ≤ n) ∧
      sel.floor = if m = 0 then JsVal.str [] else JsVal.num m := by
  obtain ⟨m, rest, hsort, hmem, hmin⟩ :=
    head_insertionSort_floors numberOther _ hk hfloors
  have hdef : ∀ k ∈ JsMap.keys state.roomsByFloor, k ≠ JsVal.undefined := by
    intro k hkm hu
    obtain ⟨n, hn⟩ := hfloors k hkm
    rw [hn] at hu
    cases hu
  have hfl : sortFloors numberOther (JsMap.keys state.roomsByFloor) = JsVal.num m :: rest := by
    rw [sortFloors_eq_of_defined numberOther _ hdef, hsort]
  obtain ⟨d, ds, hds⟩ : ∃ d ds, state.days = d :: ds := by
    cases hdd : state.days with
    | nil => exact absurd hdd hd
    | cons d ds => exact ⟨d, ds, rfl⟩
  obtain ⟨q, qs, hqs⟩ : ∃ q qs, state.periods = q :: qs := by
    cases hpp : state.periods with
    | nil => exact absurd hpp hp
    | cons q qs => exact ⟨q, qs, rfl⟩
  obtain ⟨sd, hsd⟩ := (isStr_iff d).1 (hdays d (by rw [hds]; exact List.mem_cons_self _ _))
  obtain ⟨sq, hsq⟩ := (isStr_iff q).1 (hperiods q (by rw [hqs]; exact List.mem_cons_self _ _))
  have hall : (state.days.all isStr && state.periods.all isStr) = true := by
    rw [Bool.and_eq_true, List.all_eq_true, List.all_eq_true]
    exact ⟨hdays, hperiods⟩
  refine ⟨_, m, by unfold buildFilters; rw [if_pos hall], ?_, ?_, ?_, hmem, hmin, ?_⟩
  · simp [hds, hsd, orElse_str]
  · simp [hqs, hsq, orElse_str]
  · rw [hfl]; rfl
  · simp only [hfl, List.getD_cons_zero]
    by_cases hm : m = 0
    · subst hm; rfl
    · simp [orElse, truthy, hm]

/-- C11, at the failing input. The sample data (two rooms on floor 0, the scenario
of the specification) loaded by `loadData` has schedule entries and rooms, and the
sorted floor keys are the single key 0; `buildFilters` assigns the first day and the
first period, and for the floor it assigns the empty string, not the smallest floor
0.  On a store whose only floor is 4 it assigns 4. -/
theorem buildFilters_floor_zero_assigns_empty :
    loadData sampleData emptyState = some sampleState ∧
    sampleState.schedules ≠ [] ∧ sampleState.roomsById ≠ [] ∧
    sortFloors numberNaN (JsMap.keys sampleState.roomsByFloor) = [JsVal.num 0] ∧
    buildFilters numberNaN sampleState
      = some { day := JsVal.str (u16 "Day1"), period := JsVal.str (u16 "P1"),
               floor := JsVal.str [] } ∧
    sampleState.days.head? = some (JsVal.str (u16 "Day1")) ∧
    sampleState.periods.head? = some (JsVal.str (u16 "P1")) ∧
    JsVal.str [] ≠ JsVal.num 0 ∧
    buildFilters numberNaN sampleUpperState
      = some { day := JsVal.str (u16 "Day1"), period := JsVal.str (u16 "P1"),
               floor := JsVal.num 4 } := by
  refine ⟨by decide, by decide, by decide, by decide, by decide, by decide, by decide,
    by decide, by decide⟩

end RoomAvailability
